import Mathlib

/-!
Verification of the repository-analysis streaming pipeline: the client-side
SSE frame decoder (`handleAnalyze`), the markdown section segmenter
(`parseSections`), and the server-side aggregator (`analyze-repo/index.ts`),
shallowly embedded over `List Char`.
-/

/-- Characters of a string literal, the base representation used throughout. -/
def str (s : String) : List Char := s.data

/-- Concatenation of a list of character lists. -/
def concatAll : List (List Char) → List Char
  | [] => []
  | l :: ls => l ++ concatAll ls

example : str "ab" = ['a', 'b'] := by decide

example : concatAll [str "ab", str "cd"] = str "abcd" := by decide

/-- Whitespace as recognised by JavaScript (`\s` in regexps, `String.prototype.trim`):
ASCII whitespace plus the common Unicode space characters. -/
def jsWhite (c : Char) : Bool :=
  c = ' ' || c = '\t' || c = '\n' || c = '\r' || c = '\x0b' || c = '\x0c' ||
  c.toNat = 0xa0 || c.toNat = 0x1680 || (0x2000 ≤ c.toNat && c.toNat ≤ 0x200a) ||
  c.toNat = 0x2028 || c.toNat = 0x2029 || c.toNat = 0x202f || c.toNat = 0x205f ||
  c.toNat = 0x3000 || c.toNat = 0xfeff

/-- JavaScript `String.prototype.trim`: strip `jsWhite` on both ends. -/
def trimC (s : List Char) : List Char :=
  ((s.dropWhile jsWhite).reverse.dropWhile jsWhite).reverse

/-- Does `p` occur at the start of `s`? (JS `String.prototype.startsWith`.) -/
def startsWithC : List Char → List Char → Bool
  | [], _ => true
  | _ :: _, [] => false
  | p :: ps, c :: cs => p = c && startsWithC ps cs

/-- Does `n` occur as a contiguous substring of `h`? (JS `String.prototype.includes`.) -/
def containsSub (n h : List Char) : Bool :=
  startsWithC n h ||
    match h with
    | [] => false
    | _ :: t => containsSub n t

/-- Decimal digits of a natural number, fuelled so that it reduces in the kernel. -/
def natCharsAux : Nat → Nat → List Char → List Char
  | 0, _, acc => acc
  | f + 1, n, acc =>
    let d := Char.ofNat (n % 10 + 48)
    if n < 10 then d :: acc else natCharsAux f (n / 10) (d :: acc)

/-- Decimal rendering of a natural number. -/
def natChars (n : Nat) : List Char := natCharsAux (n + 1) n []

/-- Decimal rendering of an integer (JS template-literal interpolation of a number). -/
def intChars : Int → List Char
  | .ofNat n => natChars n
  | .negSucc n => '-' :: natChars (n + 1)

example : natChars 1507 = str "1507" := by decide

example : intChars (-42) = str "-42" := by decide

example : trimC (str "  a b\t ") = str "a b" := by decide

example : containsSub (str "bc") (str "abcd") = true := by decide

/-! ## JSON values and `JSON.parse`

A model of the JSON values that the JavaScript `JSON.parse` produces, together
with a fuelled parser.  Numbers keep their source lexeme: none of the
verified components computes with numeric payload values. -/

inductive Json where
  | null
  | bool (b : Bool)
  | num (raw : List Char)
  | str (s : List Char)
  | arr (elems : List Json)
  | obj (fields : List (List Char × Json))

/-- JSON token whitespace (RFC 8259: space, tab, newline, carriage return). -/
def jsonWs (c : Char) : Bool := c = ' ' || c = '\t' || c = '\n' || c = '\r'

def skipWs (cs : List Char) : List Char := cs.dropWhile jsonWs

def isDigitC (c : Char) : Bool := '0' ≤ c && c ≤ '9'

def hexVal (c : Char) : Option Nat :=
  if '0' ≤ c && c ≤ '9' then some (c.toNat - 48)
  else if 'a' ≤ c && c ≤ 'f' then some (c.toNat - 87)
  else if 'A' ≤ c && c ≤ 'F' then some (c.toNat - 55)
  else none

def hex4 (a b c d : Char) : Option Nat := do
  let x ← hexVal a; let y ← hexVal b; let z ← hexVal c; let w ← hexVal d
  pure (((x * 16 + y) * 16 + z) * 16 + w)

/-- Body of a JSON string literal, after the opening quote.  Returns the decoded
content and the input after the closing quote. -/
def parseStrBody : Nat → List Char → Option (List Char × List Char)
  | 0, _ => none
  | _ + 1, [] => none
  | f + 1, c :: rest =>
    if c = '"' then some ([], rest)
    else if c = '\\' then
      match rest with
      | [] => none
      | e :: rest2 =>
        let dec : Option (Char × List Char) :=
          if e = '"' then some ('"', rest2)
          else if e = '\\' then some ('\\', rest2)
          else if e = '/' then some ('/', rest2)
          else if e = 'b' then some ('\x08', rest2)
          else if e = 'f' then some ('\x0c', rest2)
          else if e = 'n' then some ('\n', rest2)
          else if e = 'r' then some ('\r', rest2)
          else if e = 't' then some ('\t', rest2)
          else if e = 'u' then
            match rest2 with
            | a :: b :: c2 :: d :: rest3 => (hex4 a b c2 d).map (fun n => (Char.ofNat n, rest3))
            | _ => none
          else none
        match dec with
        | none => none
        | some (ch, rest3) => (parseStrBody f rest3).map (fun p => (ch :: p.1, p.2))
    else if c.toNat < 32 then none
    else (parseStrBody f rest).map (fun p => (c :: p.1, p.2))

/-- Lexes a JSON number (`-? int frac? exp?`), returning its lexeme and the rest. -/
def lexNum (cs : List Char) : Option (List Char × List Char) :=
  let (sgn, cs1) :=
    match cs with
    | '-' :: t => ([('-' : Char)], t)
    | _ => ([], cs)
  match cs1 with
  | [] => none
  | c :: t =>
    if c = '0' then
      let (fe, rest) := lexFracExp t
      some (sgn ++ [c] ++ fe, rest)
    else if isDigitC c then
      let ds := t.takeWhile isDigitC
      let t2 := t.dropWhile isDigitC
      let (fe, rest) := lexFracExp t2
      some (sgn ++ [c] ++ ds ++ fe, rest)
    else none
where
  lexFracExp (cs : List Char) : List Char × List Char :=
    let (fr, cs2) :=
      match cs with
      | '.' :: t =>
        match t.takeWhile isDigitC with
        | [] => ([], cs)
        | ds => ('.' :: ds, t.dropWhile isDigitC)
      | _ => ([], cs)
    let (ex, cs3) :=
      match cs2 with
      | e :: t =>
        if e = 'e' || e = 'E' then
          let (s2, t2) :=
            match t with
            | '+' :: u => (['+'], u)
            | '-' :: u => (['-'], u)
            | _ => (([] : List Char), t)
          match t2.takeWhile isDigitC with
          | [] => ([], cs2)
          | ds => (e :: s2 ++ ds, t2.dropWhile isDigitC)
        else ([], cs2)
      | _ => ([], cs2)
    (fr ++ ex, cs3)

/-- Parses the elements of a JSON array after the opening bracket, given a
parser `pv` for single values.  `fuel` bounds the number of elements. -/
def parseArrElems (pv : List Char → Option (Json × List Char)) :
    Nat → List Char → Option (List Json × List Char)
  | 0, _ => none
  | f + 1, cs =>
    match pv cs with
    | none => none
    | some (j, rest) =>
      match skipWs rest with
      | ',' :: rest2 =>
        (parseArrElems pv f rest2).map (fun p => (j :: p.1, p.2))
      | ']' :: rest2 => some ([j], rest2)
      | _ => none

/-- Parses the members of a JSON object after the opening brace, given a
parser `pv` for single values. -/
def parseObjMembers (pv : List Char → Option (Json × List Char)) :
    Nat → List Char → Option (List (List Char × Json) × List Char)
  | 0, _ => none
  | f + 1, cs =>
    match skipWs cs with
    | '"' :: rest =>
      match parseStrBody (rest.length + 1) rest with
      | none => none
      | some (key, rest2) =>
        match skipWs rest2 with
        | ':' :: rest3 =>
          match pv rest3 with
          | none => none
          | some (v, rest4) =>
            match skipWs rest4 with
            | ',' :: rest5 =>
              (parseObjMembers pv f rest5).map (fun p => ((key, v) :: p.1, p.2))
            | '\x7d' :: rest5 => some ([(key, v)], rest5)
            | _ => none
        | _ => none
    | _ => none

/-- Parses one JSON value; `fuel` bounds the nesting depth. -/
def parseVal : Nat → List Char → Option (Json × List Char)
  | 0, _ => none
  | f + 1, cs =>
    let cs := skipWs cs
    match cs with
    | [] => none
    | c :: rest =>
      if c = '"' then
        (parseStrBody (rest.length + 1) rest).map (fun p => (Json.str p.1, p.2))
      else if c = '[' then
        match skipWs rest with
        | ']' :: rest2 => some (Json.arr [], rest2)
        | _ => (parseArrElems (parseVal f) (rest.length + 1) rest).map
            (fun p => (Json.arr p.1, p.2))
      else if c = '\x7b' then
        match skipWs rest with
        | '\x7d' :: rest2 => some (Json.obj [], rest2)
        | _ => (parseObjMembers (parseVal f) (rest.length + 1) rest).map
            (fun p => (Json.obj p.1, p.2))
      else if c = 't' then
        match rest with
        | 'r' :: 'u' :: 'e' :: rest2 => some (Json.bool true, rest2)
        | _ => none
      else if c = 'f' then
        match rest with
        | 'a' :: 'l' :: 's' :: 'e' :: rest2 => some (Json.bool false, rest2)
        | _ => none
      else if c = 'n' then
        match rest with
        | 'u' :: 'l' :: 'l' :: rest2 => some (Json.null, rest2)
        | _ => none
      else
        (lexNum cs).map (fun p => (Json.num p.1, p.2))

/-- `JSON.parse`: one value spanning the whole input (modulo whitespace). -/
def jsonParse (s : List Char) : Option Json :=
  match parseVal (s.length + 1) s with
  | some (j, rest) => if skipWs rest = [] then some j else none
  | none => none

example :
    (match jsonParse (str "\x7b\"a\":[1,\"x\"],\"b\":null\x7d") with
     | some (Json.obj [(_, Json.arr [Json.num n, Json.str x]), (b, Json.null)]) =>
       n = str "1" && x = str "x" && b = str "b"
     | _ => false) = true := by decide

example : (jsonParse (str "\x7b\"choices\":[\x7b\"delta\":\x7b\"content\":\"He\"")).isNone = true := by
  decide

example :
    (match jsonParse (str "  true ") with
     | some (Json.bool true) => true
     | _ => false) = true := by decide

/-! ## JavaScript property access on parsed JSON

Models `parsed.choices?.[0]?.delta?.content` from `handleAnalyze`.  Property
access on `null` throws a `TypeError` (caught by the surrounding `try`);
access on any other primitive yields `undefined` (modelled as `none`). -/

/-- Last-binding field lookup (`JSON.parse` keeps the last duplicate key). -/
def lookupField (kvs : List (List Char × Json)) (k : List Char) : Option Json :=
  match kvs with
  | [] => none
  | (k', v) :: rest =>
    match lookupField rest k with
    | some r => some r
    | none => if k' = k then some v else none

/-- JS property read `x.k` for non-null `x` (primitives have no own fields). -/
def jsGetField (j : Json) (k : List Char) : Option Json :=
  match j with
  | .obj kvs => lookupField kvs k
  | _ => none

/-- JS indexed read `x[0]` for non-null `x`. -/
def jsIdx0 (j : Json) : Option Json :=
  match j with
  | .arr xs => xs[0]?
  | .obj kvs => lookupField kvs (str "0")
  | .str s => (s[0]?).map (fun c => Json.str [c])
  | _ => none

/-- Optional chaining `x?.…`: `null`/`undefined` short-circuit to `undefined`. -/
def optChain (x : Option Json) (f : Json → Option Json) : Option Json :=
  match x with
  | none => none
  | some .null => none
  | some j => f j

/-- `parsed.choices?.[0]?.delta?.content`.  The first access `parsed.choices`
is not optional-chained: on `null` it throws (modelled as `.error ()`). -/
def extractContent (parsed : Json) : Except Unit (Option Json) :=
  match parsed with
  | .null => .error ()
  | j =>
    let choices := jsGetField j (str "choices")
    let first := optChain choices jsIdx0
    let delta := optChain first (fun x => jsGetField x (str "delta"))
    .ok (optChain delta (fun x => jsGetField x (str "content")))

/-- Does every character of the mantissa equal zero (JS numeric falsiness)? -/
def numLexIsZero (raw : List Char) : Bool :=
  (raw.takeWhile (fun c => c ≠ 'e' && c ≠ 'E')).all
    (fun c => !('1' ≤ c && c ≤ '9'))

/-- JS truthiness of a value obtained from `JSON.parse`. -/
def truthy : Json → Bool
  | .null => false
  | .bool b => b
  | .num raw => !numLexIsZero raw
  | .str s => !s.isEmpty
  | .arr _ => true
  | .obj _ => true

/-- JS string coercion, as used by `result += content`.  Strings pass through
unchanged; numbers are modelled by their source lexeme; array/object coercion
is modelled only as far as the verified claims exercise it (`content` is a
string in every frame the protocol produces). -/
def jsToStr : Json → List Char
  | .str s => s
  | .num raw => raw
  | .bool true => str "true"
  | .bool false => str "false"
  | .null => str "null"
  | .arr [] => []
  | .arr _ => str "[array]"
  | .obj _ => str "[object Object]"

/-! ## The frame decoder of `handleAnalyze`

The client reads byte chunks, appends them to `buffer`, and drains complete
newline-delimited lines (translated literally from
`src/unnamed/part_000:124-149`).  `drain` is fuelled; one unit of fuel per
extracted line, and every extraction removes at least the delimiter from the
buffer, so `buffer.length + 1` fuel can never run out. -/

/-- The fixed frame marker `"data: "`. -/
def dataMark : List Char := str "data: "

/-- The terminal sentinel `"[DONE]"`. -/
def doneMark : List Char := str "[DONE]"

/-- `if (line.endsWith("\r")) line = line.slice(0, -1)`. -/
def stripCR (line : List Char) : List Char :=
  match line.getLast? with
  | some '\r' => line.dropLast
  | _ => line

/-- Splits the buffer at its first newline: `buffer.indexOf("\n")` plus the two
`slice` calls.  `none` when the buffer holds no complete line. -/
def splitNl : List Char → Option (List Char × List Char)
  | [] => none
  | c :: cs =>
    if c = '\n' then some ([], cs)
    else (splitNl cs).map (fun p => (c :: p.1, p.2))

/-- What the loop body does with one extracted line. -/
inductive LineAct where
  | skip
  | silent
  | emit (s : List Char)
  | stop
  | restore

/-- One iteration of the drain loop, after the line has been cut out of the
buffer: carriage-return strip, prefix test (`continue` = `.skip`), sentinel
test (`break` = `.stop`), `JSON.parse` plus delta extraction (a thrown parse
or property-access error restores the line, `.restore`), and the truthiness
test guarding `result += content` (`.silent` when nothing is appended). -/
def handleLine (rawLine : List Char) : LineAct :=
  let line := stripCR rawLine
  if !startsWithC dataMark line then .skip
  else
    let jsonStr := trimC (line.drop 6)
    if jsonStr = doneMark then .stop
    else
      match jsonParse jsonStr with
      | none => .restore
      | some parsed =>
        match extractContent parsed with
        | .error _ => .restore
        | .ok none => .silent
        | .ok (some v) => if truthy v then .emit (jsToStr v) else .silent

/-- The inner `while ((newlineIndex = buffer.indexOf("\n")) !== -1)` loop:
returns the final buffer and the emitted deltas, in order. -/
def drain : Nat → List Char → List Char × List (List Char)
  | 0, buf => (buf, [])
  | f + 1, buf =>
    match splitNl buf with
    | none => (buf, [])
    | some (rawLine, rest) =>
      match handleLine rawLine with
      | .skip => drain f rest
      | .silent => drain f rest
      | .emit s =>
        let r := drain f rest
        (r.1, s :: r.2)
      | .stop => (rest, [])
      | .restore => (stripCR rawLine ++ '\n' :: rest, [])

/-- Processing of one inbound chunk: append to the buffer, then drain. -/
def feedChunk (buf chunk : List Char) : List Char × List (List Char) :=
  drain ((buf ++ chunk).length + 1) (buf ++ chunk)

/-- Deltas emitted over a whole sequence of chunks, starting from buffer `buf`. -/
def feedAll (buf : List Char) : List (List Char) → List (List Char)
  | [] => []
  | c :: cs =>
    let r := feedChunk buf c
    r.2 ++ feedAll r.1 cs

/-- The decoder of `handleAnalyze` run over a chunked byte stream
(`buffer` starts empty): the ordered sequence of extracted text deltas. -/
def decodeChunks (chunks : List (List Char)) : List (List Char) :=
  feedAll [] chunks

/-- The drain loop threading the accumulated `result` string exactly as the
source does (`result += content` on each emitted delta). -/
def drainR : Nat → List Char → List Char → List Char × List Char
  | 0, buf, res => (buf, res)
  | f + 1, buf, res =>
    match splitNl buf with
    | none => (buf, res)
    | some (rawLine, rest) =>
      match handleLine rawLine with
      | .skip => drainR f rest res
      | .silent => drainR f rest res
      | .emit s => drainR f rest (res ++ s)
      | .stop => (rest, res)
      | .restore => (stripCR rawLine ++ '\n' :: rest, res)

/-- Chunk processing threading the accumulated report. -/
def feedAllR (buf res : List Char) : List (List Char) → List Char
  | [] => res
  | c :: cs =>
    let r := drainR ((buf ++ c).length + 1) (buf ++ c) res
    feedAllR r.1 r.2 cs

/-- The accumulated report string at the end of a chunked stream. -/
def resultOf (chunks : List (List Char)) : List Char := feedAllR [] [] chunks

example :
    decodeChunks [str "data: \x7b\"choices\":[\x7b\"delta\":\x7b\"content\":\"He",
      str "llo\"\x7d\x7d]\x7d\n", str "data: [DONE]\n"] = [str "Hello"] := by decide

example :
    decodeChunks [str "data: \x7b\"choices\":[\x7b\"delta\":\x7b\"content\":\"Hello\"\x7d\x7d]\x7d\ndata: [DONE]\n"] =
      [str "Hello"] := by decide

example : resultOf [str "data: \x7b\"choices\":[\x7b\"delta\":\x7b\"content\":\"He",
      str "llo\"\x7d\x7d]\x7d\n", str "data: [DONE]\n"] = str "Hello" := by decide

example :
    decodeChunks [str "data: [DONE]\n",
      str "data: \x7b\"choices\":[\x7b\"delta\":\x7b\"content\":\"X\"\x7d\x7d]\x7d\n"] = [str "X"] := by decide

/-! ## Valid frame streams

A frame stream is presented as its list of newline-terminated lines.  A data
line (one starting with `"data: "` after carriage-return stripping) carries
either the sentinel payload or a payload that `JSON.parse` accepts; validity
additionally requires that, after the first sentinel line, only non-data
lines occur (per the wire format, no further frames are expected). -/

/-- No character of the line is the frame delimiter. -/
def noNlQ (l : List Char) : Bool := l.all (fun c => c ≠ '\n')

/-- Is the (CR-stripped) line a frame, i.e. does it start with `"data: "`? -/
def dataLineQ (l : List Char) : Bool := startsWithC dataMark (stripCR l)

/-- The trimmed payload of a frame line (text after the 6-character marker). -/
def payloadOf (l : List Char) : List Char := trimC ((stripCR l).drop 6)

/-- Is the line the terminal sentinel frame? -/
def isSentQ (l : List Char) : Bool := dataLineQ l && payloadOf l = doneMark

/-- A line the decoder can consume without entering the restore path: either
not a frame at all, or the sentinel, or a frame whose payload parses to a
non-`null` JSON value whose extracted content is absent or a string. -/
def okLineQ (l : List Char) : Bool :=
  if dataLineQ l then
    if payloadOf l = doneMark then true
    else
      match jsonParse (payloadOf l) with
      | none => false
      | some j =>
        match extractContent j with
        | .ok none => true
        | .ok (some (Json.str _)) => true
        | _ => false
  else true

/-- Lines strictly before the first sentinel line. -/
def preSent (ls : List (List Char)) : List (List Char) :=
  ls.takeWhile (fun l => !isSentQ l)

/-- Lines strictly after the first sentinel line (empty when there is none). -/
def postSent (ls : List (List Char)) : List (List Char) :=
  match ls.dropWhile (fun l => !isSentQ l) with
  | [] => []
  | _ :: t => t

/-- Does some line carry the sentinel payload? -/
def hasSent (ls : List (List Char)) : Bool := ls.any isSentQ

/-- The raw byte stream formed by a list of lines, each newline-terminated. -/
def joinLines (ls : List (List Char)) : List Char :=
  concatAll (ls.map (fun l => l ++ ['\n']))

/-- The delta the decoder emits for one complete line, if any. -/
def lineEmit (l : List Char) : Option (List Char) :=
  match handleLine l with
  | .emit s => some s
  | _ => none

/-- Validity of a frame stream given as its line list. -/
def validStream (ls : List (List Char)) : Bool :=
  ls.all noNlQ && (preSent ls).all okLineQ &&
    (postSent ls).all (fun l => !dataLineQ l)

/-- The deltas a correct decode of the stream extracts, in order: one per
emitting frame strictly before the sentinel. -/
def streamDeltas (ls : List (List Char)) : List (List Char) :=
  (preSent ls).filterMap lineEmit

/-- The payload text carried by one line of the stream: the string content of
a non-sentinel frame, and empty for everything else. -/
def payloadText (l : List Char) : List Char :=
  if dataLineQ l && !isSentQ l then
    match jsonParse (payloadOf l) with
    | none => []
    | some j =>
      match extractContent j with
      | .ok (some (Json.str s)) => s
      | _ => []
  else []

/-! ## Decoder lemmas -/

theorem concatAll_append (a b : List (List Char)) :
    concatAll (a ++ b) = concatAll a ++ concatAll b := by
  induction a with
  | nil => simp [concatAll]
  | cons l ls ih => simp [concatAll, ih]

theorem joinLines_append (a b : List (List Char)) :
    joinLines (a ++ b) = joinLines a ++ joinLines b := by
  simp [joinLines, concatAll_append]

theorem joinLines_cons (l : List Char) (ls : List (List Char)) :
    joinLines (l :: ls) = l ++ '\n' :: joinLines ls := by
  simp [joinLines, concatAll]

theorem length_le_joinLines (ls : List (List Char)) :
    ls.length ≤ (joinLines ls).length := by
  induction ls with
  | nil => simp [joinLines, concatAll]
  | cons l t ih =>
    rw [joinLines_cons]
    simp only [List.length_append, List.length_cons, List.length]
    omega

theorem splitNl_join (l rest : List Char) (h : ∀ c ∈ l, c ≠ '\n') :
    splitNl (l ++ '\n' :: rest) = some (l, rest) := by
  induction l with
  | nil => simp [splitNl]
  | cons c t ih =>
    have hc : c ≠ '\n' := h c (by simp)
    have ht : ∀ c' ∈ t, c' ≠ '\n' := fun c' hm => h c' (by simp [hm])
    simp [splitNl, hc, ih ht]

theorem splitNl_none (frag : List Char) (h : ∀ c ∈ frag, c ≠ '\n') :
    splitNl frag = none := by
  induction frag with
  | nil => simp [splitNl]
  | cons c t ih =>
    have hc : c ≠ '\n' := h c (by simp)
    have ht : ∀ c' ∈ t, c' ≠ '\n' := fun c' hm => h c' (by simp [hm])
    simp [splitNl, hc, ih ht]

theorem handleLine_eq (l : List Char) :
    handleLine l =
      (if dataLineQ l then
        if payloadOf l = doneMark then .stop
        else
          match jsonParse (payloadOf l) with
          | none => .restore
          | some parsed =>
            match extractContent parsed with
            | .error _ => .restore
            | .ok none => .silent
            | .ok (some v) => if truthy v then .emit (jsToStr v) else .silent
      else .skip) := by
  unfold handleLine dataLineQ payloadOf
  cases hd : startsWithC dataMark (stripCR l) <;> simp [hd]

theorem handleLine_skip (l : List Char) (h : dataLineQ l = false) :
    handleLine l = .skip := by
  rw [handleLine_eq, if_neg (by simp [h])]

theorem handleLine_stop_iff (l : List Char) :
    handleLine l = .stop ↔ isSentQ l = true := by
  rw [handleLine_eq]
  unfold isSentQ
  by_cases hd : dataLineQ l = true
  · rw [if_pos hd, hd]
    by_cases hp : payloadOf l = doneMark
    · simp [hp]
    · rw [if_neg hp]
      cases hj : jsonParse (payloadOf l) with
      | none => simp [hp]
      | some j =>
        cases he : extractContent j with
        | error e => simp [he, hp]
        | ok c =>
          cases c with
          | none => simp [he, hp]
          | some v => by_cases ht : truthy v = true <;> simp [he, ht, hp]
  · rw [if_neg hd]
    simp only [Bool.not_eq_true] at hd
    simp [hd]

theorem handleLine_not_restore (l : List Char) (h : okLineQ l = true) :
    handleLine l ≠ .restore := by
  rw [handleLine_eq]
  unfold okLineQ at h
  by_cases hd : dataLineQ l = true
  · rw [if_pos hd]
    rw [if_pos hd] at h
    by_cases hp : payloadOf l = doneMark
    · simp [hp]
    · rw [if_neg hp]
      rw [if_neg hp] at h
      cases hj : jsonParse (payloadOf l) with
      | none => simp [hj] at h
      | some j =>
        rw [hj] at h
        cases he : extractContent j with
        | error e => simp [he] at h
        | ok c =>
          cases c with
          | none => simp [he]
          | some v => by_cases ht : truthy v = true <;> simp [he, ht]
  · rw [if_neg hd]
    simp

theorem lineEmit_of_skip (l : List Char) (h : handleLine l = .skip) :
    lineEmit l = none := by
  unfold lineEmit; rw [h]

theorem lineEmit_of_silent (l : List Char) (h : handleLine l = .silent) :
    lineEmit l = none := by
  unfold lineEmit; rw [h]

theorem lineEmit_of_emit (l : List Char) (s : List Char) (h : handleLine l = .emit s) :
    lineEmit l = some s := by
  unfold lineEmit; rw [h]

theorem isSentQ_data (l : List Char) (h : isSentQ l = true) : dataLineQ l = true := by
  unfold isSentQ at h
  exact (Bool.and_eq_true_iff.mp h).1

theorem preSent_cons_sent (l : List Char) (ls : List (List Char)) (h : isSentQ l = true) :
    preSent (l :: ls) = [] := by
  simp [preSent, List.takeWhile_cons, h]

theorem preSent_cons_not (l : List Char) (ls : List (List Char)) (h : isSentQ l = false) :
    preSent (l :: ls) = l :: preSent ls := by
  simp [preSent, List.takeWhile_cons, h]

theorem postSent_cons_sent (l : List Char) (ls : List (List Char)) (h : isSentQ l = true) :
    postSent (l :: ls) = ls := by
  simp [postSent, List.dropWhile_cons, h]

theorem postSent_cons_not (l : List Char) (ls : List (List Char)) (h : isSentQ l = false) :
    postSent (l :: ls) = postSent ls := by
  simp [postSent, List.dropWhile_cons, h]

theorem hasSent_cons (l : List Char) (ls : List (List Char)) :
    hasSent (l :: ls) = (isSentQ l || hasSent ls) := by
  simp [hasSent]

theorem mem_preSent_not_sent (l : List Char) (ls : List (List Char))
    (h : l ∈ preSent ls) : isSentQ l = false := by
  have := List.mem_takeWhile_imp h
  simpa using this

theorem noNlQ_mem (l : List Char) (h : noNlQ l = true) : ∀ c ∈ l, c ≠ '\n' := by
  intro c hc
  have := List.all_eq_true.mp h c hc
  simpa using this

theorem drain_spec (lines : List (List Char)) : ∀ (frag : List Char) (f : Nat),
    lines.length < f →
    (∀ l ∈ lines, noNlQ l = true) →
    (∀ c ∈ frag, c ≠ '\n') →
    (∀ l ∈ preSent lines, okLineQ l = true) →
    drain f (joinLines lines ++ frag) =
      (if hasSent lines then joinLines (postSent lines) ++ frag else frag,
       (preSent lines).filterMap lineEmit) := by
  induction lines with
  | nil =>
    intro frag f hf hnl hfr hok
    cases f with
    | zero => omega
    | succ f' =>
      simp [joinLines, concatAll, drain, splitNl_none frag hfr, preSent, postSent, hasSent]
  | cons l ls ih =>
    intro frag f hf hnl hfr hok
    cases f with
    | zero => omega
    | succ f' =>
      have hnlc : ∀ c ∈ l, c ≠ '\n' := noNlQ_mem l (hnl l (by simp))
      have hbuf : joinLines (l :: ls) ++ frag = l ++ '\n' :: (joinLines ls ++ frag) := by
        rw [joinLines_cons]; simp
      rw [hbuf]
      have hstep :
          drain (f' + 1) (l ++ '\n' :: (joinLines ls ++ frag)) =
            (match handleLine l with
            | .skip => drain f' (joinLines ls ++ frag)
            | .silent => drain f' (joinLines ls ++ frag)
            | .emit s =>
              let r := drain f' (joinLines ls ++ frag)
              (r.1, s :: r.2)
            | .stop => (joinLines ls ++ frag, [])
            | .restore => (stripCR l ++ '\n' :: (joinLines ls ++ frag), [])) := by
        conv_lhs => rw [drain]
        rw [splitNl_join l _ hnlc]
      rw [hstep]
      cases hact : handleLine l with
      | stop =>
        have hsent : isSentQ l = true := (handleLine_stop_iff l).mp hact
        rw [preSent_cons_sent _ _ hsent, postSent_cons_sent _ _ hsent, hasSent_cons]
        simp [hsent]
      | restore =>
        exfalso
        by_cases hsent : isSentQ l = true
        · have := (handleLine_stop_iff l).mpr hsent
          rw [hact] at this
          exact LineAct.noConfusion this
        · have hmem : l ∈ preSent (l :: ls) := by
            rw [preSent_cons_not _ _ (by simpa using hsent)]
            simp
          exact handleLine_not_restore l (hok l hmem) hact
      | skip =>
        have hsent : isSentQ l = false := by
          by_cases hs : isSentQ l = true
          · have := (handleLine_stop_iff l).mpr hs
            rw [hact] at this
            exact absurd this (by simp)
          · simpa using hs
        rw [preSent_cons_not _ _ hsent, postSent_cons_not _ _ hsent, hasSent_cons, hsent]
        rw [ih frag f' (by simpa using Nat.lt_of_succ_lt_succ hf)
          (fun l' hm => hnl l' (by simp [hm])) hfr
          (fun l' hm => hok l' (by rw [preSent_cons_not _ _ hsent]; simp [hm]))]
        simp [List.filterMap_cons, lineEmit_of_skip l hact]
      | silent =>
        have hsent : isSentQ l = false := by
          by_cases hs : isSentQ l = true
          · have := (handleLine_stop_iff l).mpr hs
            rw [hact] at this
            exact absurd this (by simp)
          · simpa using hs
        rw [preSent_cons_not _ _ hsent, postSent_cons_not _ _ hsent, hasSent_cons, hsent]
        rw [ih frag f' (by simpa using Nat.lt_of_succ_lt_succ hf)
          (fun l' hm => hnl l' (by simp [hm])) hfr
          (fun l' hm => hok l' (by rw [preSent_cons_not _ _ hsent]; simp [hm]))]
        simp [List.filterMap_cons, lineEmit_of_silent l hact]
      | emit s =>
        have hsent : isSentQ l = false := by
          by_cases hs : isSentQ l = true
          · have := (handleLine_stop_iff l).mpr hs
            rw [hact] at this
            exact absurd this (by simp)
          · simpa using hs
        rw [preSent_cons_not _ _ hsent, postSent_cons_not _ _ hsent, hasSent_cons, hsent]
        rw [ih frag f' (by simpa using Nat.lt_of_succ_lt_succ hf)
          (fun l' hm => hnl l' (by simp [hm])) hfr
          (fun l' hm => hok l' (by rw [preSent_cons_not _ _ hsent]; simp [hm]))]
        simp [List.filterMap_cons, lineEmit_of_emit l s hact]

theorem okLineQ_nondata (l : List Char) (h : dataLineQ l = false) : okLineQ l = true := by
  unfold okLineQ
  rw [if_neg (by simp [h])]

theorem isSentQ_nondata (l : List Char) (h : dataLineQ l = false) : isSentQ l = false := by
  unfold isSentQ
  simp [h]

theorem lineEmit_nondata (l : List Char) (h : dataLineQ l = false) : lineEmit l = none :=
  lineEmit_of_skip l (handleLine_skip l h)

theorem preSent_eq_self (A : List (List Char)) (h : ∀ l ∈ A, isSentQ l = false) :
    preSent A = A := by
  induction A with
  | nil => rfl
  | cons l t ih =>
    rw [preSent_cons_not _ _ (h l (by simp)), ih (fun x hm => h x (by simp [hm]))]

theorem hasSent_eq_false (A : List (List Char)) (h : ∀ l ∈ A, isSentQ l = false) :
    hasSent A = false := by
  unfold hasSent
  rw [List.any_eq_false]
  intro x hm
  simp [h x hm]

theorem preSent_append_noSent (A B : List (List Char)) (h : ∀ l ∈ A, isSentQ l = false) :
    preSent (A ++ B) = A ++ preSent B := by
  induction A with
  | nil => simp
  | cons l t ih =>
    rw [List.cons_append, preSent_cons_not _ _ (h l (by simp)),
      ih (fun x hm => h x (by simp [hm])), List.cons_append]

theorem postSent_append_noSent (A B : List (List Char)) (h : ∀ l ∈ A, isSentQ l = false) :
    postSent (A ++ B) = postSent B := by
  induction A with
  | nil => simp
  | cons l t ih =>
    rw [List.cons_append, postSent_cons_not _ _ (h l (by simp)),
      ih (fun x hm => h x (by simp [hm]))]

theorem hasSent_append (A B : List (List Char)) :
    hasSent (A ++ B) = (hasSent A || hasSent B) := by
  simp [hasSent]

theorem preSent_append_sent (A B : List (List Char)) (h : hasSent A = true) :
    preSent (A ++ B) = preSent A := by
  induction A with
  | nil => simp [hasSent] at h
  | cons l t ih =>
    by_cases hs : isSentQ l = true
    · rw [List.cons_append, preSent_cons_sent _ _ hs, preSent_cons_sent _ _ hs]
    · have hs' : isSentQ l = false := by simpa using hs
      have ht : hasSent t = true := by
        rw [hasSent_cons, hs'] at h
        simpa using h
      rw [List.cons_append, preSent_cons_not _ _ hs', preSent_cons_not _ _ hs', ih ht]

theorem postSent_append_sent (A B : List (List Char)) (h : hasSent A = true) :
    postSent (A ++ B) = postSent A ++ B := by
  induction A with
  | nil => simp [hasSent] at h
  | cons l t ih =>
    by_cases hs : isSentQ l = true
    · rw [List.cons_append, postSent_cons_sent _ _ hs, postSent_cons_sent _ _ hs]
    · have hs' : isSentQ l = false := by simpa using hs
      have ht : hasSent t = true := by
        rw [hasSent_cons, hs'] at h
        simpa using h
      rw [List.cons_append, postSent_cons_not _ _ hs', postSent_cons_not _ _ hs', ih ht]

theorem split_at_lines (ls : List (List Char)) : ∀ (p q : List Char),
    (∀ l ∈ ls, noNlQ l = true) →
    p ++ q = joinLines ls →
    ∃ k frag, p = joinLines (ls.take k) ++ frag ∧ (∀ c ∈ frag, c ≠ '\n') ∧
      frag ++ q = joinLines (ls.drop k) := by
  induction ls with
  | nil =>
    intro p q _ h
    have h0 : p = [] ∧ q = [] := by
      have h' : p ++ q = [] := by simpa [joinLines, concatAll] using h
      simpa using List.append_eq_nil.mp h'
    exact ⟨0, [], by simp [h0.1, joinLines, concatAll], by simp, by simp [h0.2, joinLines, concatAll]⟩
  | cons l t ih =>
    intro p q hnl h
    have hjoin : joinLines (l :: t) = (l ++ ['\n']) ++ joinLines t := by
      rw [joinLines_cons]; simp
    have hp1 : p <+: joinLines (l :: t) := ⟨q, h⟩
    have hp2 : (l ++ ['\n']) <+: joinLines (l :: t) := by
      rw [hjoin]; exact ⟨joinLines t, rfl⟩
    rcases List.prefix_or_prefix_of_prefix hp1 hp2 with hc | hc
    · -- p is a prefix of l ++ "\n": either all of it, or a prefix of l
      rcases hc with ⟨r, hr⟩
      cases r with
      | nil =>
        -- p = l ++ "\n": one full line consumed, empty fragment
        simp only [List.append_nil] at hr
        refine ⟨1, [], ?_, by simp, ?_⟩
        · simp [joinLines, concatAll, hr]
        · have : p ++ q = (l ++ ['\n']) ++ joinLines t := by rw [h, hjoin]
          rw [hr] at this
          have hq : q = joinLines t := List.append_cancel_left this
          simp [hq]
      | cons r0 rr =>
        -- p is a proper prefix, hence a prefix of l itself
        have hpl : p <+: l := by
          have hl1 : l <+: l ++ ['\n'] := ⟨['\n'], rfl⟩
          have hp3 : p <+: l ++ ['\n'] := ⟨r0 :: rr, hr⟩
          rcases List.prefix_or_prefix_of_prefix hp3 hl1 with hd | hd
          · exact hd
          · rcases hd with ⟨s, hs⟩
            have : s ++ (r0 :: rr) = ['\n'] := by
              have := hr
              rw [← hs, List.append_assoc] at this
              exact List.append_cancel_left this
            cases s with
            | nil => simpa using ⟨[], by simpa using hs.symm⟩
            | cons s0 ss =>
              exfalso
              have hlen := congrArg List.length this
              simp at hlen
        refine ⟨0, p, by simp [joinLines, concatAll], ?_, by simpa [hjoin] using h⟩
        intro c hcm
        exact noNlQ_mem l (hnl l (by simp)) c (hpl.subset hcm)
    · -- the first full line is inside p
      rcases hc with ⟨p', hp'⟩
      have hpq : ((l ++ ['\n']) ++ p') ++ q = (l ++ ['\n']) ++ joinLines t := by
        rw [hp', h, hjoin]
      have heq : p' ++ q = joinLines t := by
        rw [List.append_assoc] at hpq
        exact List.append_cancel_left hpq
      obtain ⟨k, frag, h1, h2, h3⟩ := ih p' q (fun x hm => hnl x (by simp [hm])) heq
      refine ⟨k + 1, frag, ?_, h2, ?_⟩
      · rw [← hp', h1, List.take_succ_cons, joinLines_cons]
        simp
      · simpa using h3

theorem mem_postSent (x : List Char) (ls : List (List Char)) (h : x ∈ postSent ls) :
    x ∈ ls := by
  unfold postSent at h
  cases hdw : ls.dropWhile (fun l => !isSentQ l) with
  | nil => rw [hdw] at h; simp at h
  | cons y t =>
    rw [hdw] at h
    have hsub : y :: t <:+ ls := by
      rw [← hdw]
      exact List.dropWhile_suffix _
    exact hsub.subset (by simp [h])

theorem feedChunk_eq (buf c : List Char) :
    feedChunk buf c = drain ((buf ++ c).length + 1) (buf ++ c) := rfl

theorem feedAll_cons (buf c : List Char) (cs : List (List Char)) :
    feedAll buf (c :: cs) = (feedChunk buf c).2 ++ feedAll (feedChunk buf c).1 cs := rfl

/-- After the sentinel: the buffer holds only (possibly) leftover non-frame
lines and a partial line, and every line still to come is a non-frame line;
no further chunk ever makes the decoder emit. -/
theorem feedAll_post (chunks : List (List Char)) :
    ∀ (pend future : List (List Char)) (frag : List Char),
    (∀ l ∈ pend, noNlQ l = true) → (∀ l ∈ pend, dataLineQ l = false) →
    (∀ l ∈ future, noNlQ l = true) → (∀ l ∈ future, dataLineQ l = false) →
    (∀ c ∈ frag, c ≠ '\n') →
    frag ++ concatAll chunks = joinLines future →
    feedAll (joinLines pend ++ frag) chunks = [] := by
  induction chunks with
  | nil => intro pend future frag _ _ _ _ _ _; rfl
  | cons c cs ih =>
    intro pend future frag hp1 hp2 hf1 hf2 hfr heq
    have heq2 : (frag ++ c) ++ concatAll cs = joinLines future := by
      simpa [concatAll, List.append_assoc] using heq
    obtain ⟨k, frag', hpk, hfr', hrest⟩ := split_at_lines future (frag ++ c) (concatAll cs) hf1 heq2
    have hbuf : (joinLines pend ++ frag) ++ c = joinLines (pend ++ future.take k) ++ frag' := by
      rw [List.append_assoc, hpk, joinLines_append, List.append_assoc]
    have hnlAll : ∀ l ∈ pend ++ future.take k, noNlQ l = true := by
      intro x hm
      rcases List.mem_append.mp hm with hm | hm
      · exact hp1 x hm
      · exact hf1 x (List.take_subset k future hm)
    have hndAll : ∀ l ∈ pend ++ future.take k, dataLineQ l = false := by
      intro x hm
      rcases List.mem_append.mp hm with hm | hm
      · exact hp2 x hm
      · exact hf2 x (List.take_subset k future hm)
    have hnsAll : ∀ l ∈ pend ++ future.take k, isSentQ l = false :=
      fun x hm => isSentQ_nondata x (hndAll x hm)
    have hfuel : (pend ++ future.take k).length < ((joinLines pend ++ frag) ++ c).length + 1 := by
      have h1 := length_le_joinLines (pend ++ future.take k)
      have h2 : (joinLines (pend ++ future.take k)).length ≤
          (joinLines (pend ++ future.take k) ++ frag').length := by simp
      rw [hbuf]
      omega
    have hdrain := drain_spec (pend ++ future.take k) frag'
      (((joinLines pend ++ frag) ++ c).length + 1) hfuel hnlAll hfr'
      (fun x hm => okLineQ_nondata x (hndAll x (List.takeWhile_subset _ hm)))
    rw [hasSent_eq_false _ hnsAll] at hdrain
    simp only [if_false, Bool.false_eq_true] at hdrain
    have hout : (preSent (pend ++ future.take k)).filterMap lineEmit = [] := by
      rw [List.filterMap_eq_nil_iff]
      intro x hm
      exact lineEmit_nondata x (hndAll x (List.takeWhile_subset _ hm))
    rw [feedAll_cons, feedChunk_eq, hbuf] at *
    rw [hdrain]
    simp only [hout, List.nil_append]
    have := ih [] (future.drop k) frag'
      (by intro x hm; simp at hm) (by intro x hm; simp at hm)
      (fun x hm => hf1 x (List.drop_subset k future hm))
      (fun x hm => hf2 x (List.drop_subset k future hm))
      hfr' hrest
    simpa [joinLines, concatAll] using this

/-- Main feed lemma: decoding any chunking whose bytes continue a valid tail
`future` (with `frag` the partial first line already buffered) emits exactly
the deltas of the frames strictly before the sentinel. -/
theorem feedAll_spec (chunks : List (List Char)) :
    ∀ (future : List (List Char)) (frag : List Char),
    (∀ l ∈ future, noNlQ l = true) →
    (∀ c ∈ frag, c ≠ '\n') →
    (∀ l ∈ preSent future, okLineQ l = true) →
    (∀ l ∈ postSent future, dataLineQ l = false) →
    frag ++ concatAll chunks = joinLines future →
    feedAll frag chunks = (preSent future).filterMap lineEmit := by
  induction chunks with
  | nil =>
    intro future frag hf1 hfr hok hpost heq
    cases future with
    | nil => rfl
    | cons l t =>
      exfalso
      have hmem : '\n' ∈ frag := by
        have : '\n' ∈ joinLines (l :: t) := by
          rw [joinLines_cons]
          simp
        rw [← heq] at this
        simpa [concatAll] using this
      exact hfr '\n' hmem rfl
  | cons c cs ih =>
    intro future frag hf1 hfr hok hpost heq
    have heq2 : (frag ++ c) ++ concatAll cs = joinLines future := by
      simpa [concatAll, List.append_assoc] using heq
    obtain ⟨k, frag', hpk, hfr', hrest⟩ := split_at_lines future (frag ++ c) (concatAll cs) hf1 heq2
    have hTD : future.take k ++ future.drop k = future := List.take_append_drop k future
    have hbuf : frag ++ c = joinLines (future.take k) ++ frag' := hpk
    have hnlA : ∀ l ∈ future.take k, noNlQ l = true :=
      fun x hm => hf1 x (List.take_subset k future hm)
    have hfuel : (future.take k).length < (frag ++ c).length + 1 := by
      have h1 := length_le_joinLines (future.take k)
      have h2 : (joinLines (future.take k)).length ≤
          (joinLines (future.take k) ++ frag').length := by simp
      rw [hbuf]
      omega
    by_cases hs : hasSent (future.take k) = true
    · -- the sentinel is consumed during this chunk
      have hpre : preSent future = preSent (future.take k) := by
        conv_lhs => rw [← hTD]
        exact preSent_append_sent _ _ hs
      have hpostEq : postSent future = postSent (future.take k) ++ future.drop k := by
        conv_lhs => rw [← hTD]
        exact postSent_append_sent _ _ hs
      have hokA : ∀ l ∈ preSent (future.take k), okLineQ l = true := by
        intro x hm
        exact hok x (by rw [hpre]; exact hm)
      have hdrain := drain_spec (future.take k) frag' ((frag ++ c).length + 1)
        hfuel hnlA hfr' hokA
      rw [if_pos hs] at hdrain
      rw [hbuf] at hdrain
      rw [feedAll_cons, feedChunk_eq, hbuf, hdrain]
      have hpendND : ∀ l ∈ postSent (future.take k), dataLineQ l = false := by
        intro x hm
        exact hpost x (by rw [hpostEq]; exact List.mem_append_left _ hm)
      have hpendNL : ∀ l ∈ postSent (future.take k), noNlQ l = true := by
        intro x hm
        exact hnlA x (mem_postSent x _ hm)
      have hdrop1 : ∀ l ∈ future.drop k, noNlQ l = true :=
        fun x hm => hf1 x (List.drop_subset k future hm)
      have hdrop2 : ∀ l ∈ future.drop k, dataLineQ l = false := by
        intro x hm
        exact hpost x (by rw [hpostEq]; exact List.mem_append_right _ hm)
      rw [feedAll_post cs (postSent (future.take k)) (future.drop k) frag'
        hpendNL hpendND hdrop1 hdrop2 hfr' hrest]
      rw [hpre]
      simp
    · -- no sentinel among the lines completed by this chunk: emit and recurse
      have hs' : ∀ l ∈ future.take k, isSentQ l = false := by
        have := hasSent_eq_false
        intro x hm
        by_cases hx : isSentQ x = true
        · exfalso
          apply hs
          unfold hasSent
          rw [List.any_eq_true]
          exact ⟨x, hm, hx⟩
        · simpa using hx
      have hpre : preSent future = future.take k ++ preSent (future.drop k) := by
        conv_lhs => rw [← hTD]
        exact preSent_append_noSent _ _ hs'
      have hpostEq : postSent future = postSent (future.drop k) := by
        conv_lhs => rw [← hTD]
        exact postSent_append_noSent _ _ hs'
      have hokA : ∀ l ∈ preSent (future.take k), okLineQ l = true := by
        intro x hm
        have hm' : x ∈ future.take k := List.takeWhile_subset _ hm
        exact hok x (by rw [hpre]; exact List.mem_append_left _ hm')
      have hdrain := drain_spec (future.take k) frag' ((frag ++ c).length + 1)
        hfuel hnlA hfr' hokA
      rw [if_neg (by simp [hs])] at hdrain
      rw [hbuf] at hdrain
      rw [feedAll_cons, feedChunk_eq, hbuf, hdrain]
      have hih := ih (future.drop k) frag'
        (fun x hm => hf1 x (List.drop_subset k future hm)) hfr'
        (fun x hm => hok x (by rw [hpre]; exact List.mem_append_right _ hm))
        (fun x hm => hpost x (by rw [hpostEq]; exact hm))
        hrest
      rw [hih, hpre, preSent_eq_self _ hs', List.filterMap_append]

theorem validStream_parts (ls : List (List Char)) (hv : validStream ls = true) :
    (∀ l ∈ ls, noNlQ l = true) ∧ (∀ l ∈ preSent ls, okLineQ l = true) ∧
      (∀ l ∈ postSent ls, dataLineQ l = false) := by
  unfold validStream at hv
  rw [Bool.and_eq_true, Bool.and_eq_true] at hv
  obtain ⟨⟨h1, h2⟩, h3⟩ := hv
  refine ⟨List.all_eq_true.mp h1, List.all_eq_true.mp h2, ?_⟩
  intro l hm
  have := List.all_eq_true.mp h3 l hm
  simpa using this

theorem decodeChunks_spec (ls chunks : List (List Char))
    (hv : validStream ls = true) (hc : concatAll chunks = joinLines ls) :
    decodeChunks chunks = streamDeltas ls := by
  obtain ⟨h1, h2, h3⟩ := validStream_parts ls hv
  unfold decodeChunks streamDeltas
  exact feedAll_spec chunks ls [] h1 (by simp) h2 h3 (by simpa using hc)

/-- C1: for every valid frame stream and every way of splitting its bytes into
chunks — including splits inside a frame, inside the `"data: "` marker, or
between the newline delimiter and the next payload — the decoder of
`handleAnalyze` emits exactly the same ordered sequence of text deltas as it
does when the whole stream arrives as one single chunk. -/
theorem frame_decoder_chunk_invariant (ls chunks : List (List Char))
    (hv : validStream ls = true) (hc : concatAll chunks = joinLines ls) :
    decodeChunks chunks = decodeChunks [joinLines ls] := by
  rw [decodeChunks_spec ls chunks hv hc,
    decodeChunks_spec ls [joinLines ls] hv (by simp [concatAll])]

/-- Witness for C1, on the three-way split of §8 of the specification: the
frame is cut in the middle of its JSON payload. -/
theorem frame_decoder_chunk_invariant_witness :
    validStream [str "data: \x7b\"choices\":[\x7b\"delta\":\x7b\"content\":\"Hello\"\x7d\x7d]\x7d",
        str "data: [DONE]"] = true ∧
    concatAll [str "data: \x7b\"choices\":[\x7b\"delta\":\x7b\"content\":\"He",
        str "llo\"\x7d\x7d]\x7d\n", str "data: [DONE]\n"] =
      joinLines [str "data: \x7b\"choices\":[\x7b\"delta\":\x7b\"content\":\"Hello\"\x7d\x7d]\x7d",
        str "data: [DONE]"] ∧
    decodeChunks [str "data: \x7b\"choices\":[\x7b\"delta\":\x7b\"content\":\"He",
        str "llo\"\x7d\x7d]\x7d\n", str "data: [DONE]\n"] =
      decodeChunks [joinLines [str "data: \x7b\"choices\":[\x7b\"delta\":\x7b\"content\":\"Hello\"\x7d\x7d]\x7d",
        str "data: [DONE]"]] :=
  ⟨by decide, by decide,
    frame_decoder_chunk_invariant
      [str "data: \x7b\"choices\":[\x7b\"delta\":\x7b\"content\":\"Hello\"\x7d\x7d]\x7d",
        str "data: [DONE]"]
      [str "data: \x7b\"choices\":[\x7b\"delta\":\x7b\"content\":\"He",
        str "llo\"\x7d\x7d]\x7d\n", str "data: [DONE]\n"]
      (by decide) (by decide)⟩

theorem drainR_eq (f : Nat) : ∀ (buf res : List Char),
    drainR f buf res = ((drain f buf).1, res ++ concatAll (drain f buf).2) := by
  induction f with
  | zero => intro buf res; simp [drainR, drain, concatAll]
  | succ f ih =>
    intro buf res
    simp only [drainR, drain]
    cases hsp : splitNl buf with
    | none => simp [concatAll]
    | some p =>
      obtain ⟨rawLine, rest⟩ := p
      cases hact : handleLine rawLine with
      | skip => simp [hact, ih]
      | silent => simp [hact, ih]
      | emit s => simp [hact, ih, concatAll, List.append_assoc]
      | stop => simp [hact, concatAll]
      | restore => simp [hact, concatAll]

theorem feedAllR_eq (chunks : List (List Char)) : ∀ (buf res : List Char),
    feedAllR buf res chunks = res ++ concatAll (feedAll buf chunks) := by
  induction chunks with
  | nil => intro buf res; simp [feedAllR, feedAll, concatAll]
  | cons c cs ih =>
    intro buf res
    simp only [feedAllR, feedAll, feedChunk, drainR_eq, ih]
    simp [concatAll_append, List.append_assoc]

theorem resultOf_eq_concat (chunks : List (List Char)) :
    resultOf chunks = concatAll (decodeChunks chunks) := by
  unfold resultOf decodeChunks
  rw [feedAllR_eq]
  simp

theorem payloadText_eq_emit (l : List Char) (hok : okLineQ l = true)
    (hns : isSentQ l = false) :
    payloadText l = (lineEmit l).getD [] := by
  unfold payloadText lineEmit
  rw [handleLine_eq]
  unfold okLineQ at hok
  by_cases hd : dataLineQ l = true
  · rw [if_pos hd] at hok ⊢
    have hp : payloadOf l ≠ doneMark := by
      intro hcontra
      rw [show isSentQ l = (dataLineQ l && decide (payloadOf l = doneMark)) from rfl,
        hd, hcontra] at hns
      simp at hns
    rw [if_neg hp] at hok ⊢
    rw [if_pos (by simp [hd, hns])]
    cases hj : jsonParse (payloadOf l) with
    | none => rw [hj] at hok; simp at hok
    | some j =>
      rw [hj] at hok
      simp only [] at hok ⊢
      cases he : extractContent j with
      | error e => simp [he] at hok
      | ok copt =>
        simp only [he] at hok ⊢
        cases copt with
        | none => simp
        | some v =>
          cases v with
          | str s =>
            cases s with
            | nil => simp [truthy]
            | cons c0 cr => simp [truthy, jsToStr]
          | null => simp at hok
          | bool b => simp at hok
          | num raw => simp at hok
          | arr xs => simp at hok
          | obj kvs => simp at hok
  · rw [if_neg hd, if_neg (by simp [by simpa using hd])]
    simp

theorem concat_emit_eq_payload (L : List (List Char))
    (hok : ∀ l ∈ L, okLineQ l = true) (hns : ∀ l ∈ L, isSentQ l = false) :
    concatAll (L.filterMap lineEmit) = concatAll (L.map payloadText) := by
  induction L with
  | nil => rfl
  | cons l t ih =>
    rw [List.filterMap_cons, List.map_cons]
    have hpt := payloadText_eq_emit l (hok l (by simp)) (hns l (by simp))
    have ih' := ih (fun x hm => hok x (by simp [hm])) (fun x hm => hns x (by simp [hm]))
    cases hle : lineEmit l with
    | none =>
      rw [hle] at hpt
      simp only [concatAll, hpt, Option.getD, List.nil_append, ih']
    | some s =>
      rw [hle] at hpt
      simp only [concatAll, hpt, Option.getD, ih']

/-- C2: the accumulated report is, at every point (i.e. for every chunk
sequence), exactly the in-order concatenation of the deltas emitted so far —
nothing dropped, duplicated, or reordered — and over a valid stream the
concatenation of all emitted deltas reconstructs exactly the payload text of
every frame up to and including the sentinel. -/
theorem accumulated_report_faithful (ls chunks : List (List Char))
    (hv : validStream ls = true) (hc : concatAll chunks = joinLines ls) :
    (∀ cs : List (List Char), resultOf cs = concatAll (decodeChunks cs)) ∧
    resultOf chunks = concatAll ((preSent ls).map payloadText) := by
  refine ⟨resultOf_eq_concat, ?_⟩
  rw [resultOf_eq_concat, decodeChunks_spec ls chunks hv hc]
  unfold streamDeltas
  obtain ⟨_, h2, _⟩ := validStream_parts ls hv
  exact concat_emit_eq_payload (preSent ls) h2
    (fun l hm => mem_preSent_not_sent l ls hm)

/-- Witness for C2, on the split-frame stream of §8. -/
theorem accumulated_report_faithful_witness :
    validStream [str "data: \x7b\"choices\":[\x7b\"delta\":\x7b\"content\":\"Hello\"\x7d\x7d]\x7d",
        str "data: [DONE]"] = true ∧
    resultOf [str "data: \x7b\"choices\":[\x7b\"delta\":\x7b\"content\":\"He",
        str "llo\"\x7d\x7d]\x7d\n", str "data: [DONE]\n"] =
      concatAll ((preSent [str "data: \x7b\"choices\":[\x7b\"delta\":\x7b\"content\":\"Hello\"\x7d\x7d]\x7d",
        str "data: [DONE]"]).map payloadText) :=
  ⟨by decide,
    (accumulated_report_faithful
      [str "data: \x7b\"choices\":[\x7b\"delta\":\x7b\"content\":\"Hello\"\x7d\x7d]\x7d",
        str "data: [DONE]"]
      [str "data: \x7b\"choices\":[\x7b\"delta\":\x7b\"content\":\"He",
        str "llo\"\x7d\x7d]\x7d\n", str "data: [DONE]\n"]
      (by decide) (by decide)).2⟩

/-- C3 counterexample: a stream whose first chunk is exactly the sentinel
frame.  Decoding the sentinel alone emits nothing, but when a further data
frame arrives in a later chunk the decoder extracts and emits its delta
`"X"` — the `break` on `"[DONE]"` only leaves the current draining pass, so
the stream is not logically ended for subsequent chunks. -/
theorem post_sentinel_delta_still_emitted :
    decodeChunks [str "data: [DONE]\n"] = [] ∧
    decodeChunks [str "data: [DONE]\n",
      str "data: \x7b\"choices\":[\x7b\"delta\":\x7b\"content\":\"X\"\x7d\x7d]\x7d\n"] = [str "X"] := by
  constructor
  · decide
  · decide

/-- C3 (amended): seeing the sentinel frame ends the *current* draining pass:
within the pass that consumes the sentinel, no delta of any later frame in
the buffer is extracted or emitted, and everything after the sentinel
delimiter is left in the buffer untouched.  (Frames arriving in subsequent
chunks are decoded normally and may still emit, as the counterexample
shows.) -/
theorem sentinel_stops_current_drain_pass (lines : List (List Char))
    (frag : List Char) (f : Nat)
    (hf : lines.length < f)
    (hnl : ∀ l ∈ lines, noNlQ l = true)
    (hfr : ∀ c ∈ frag, c ≠ '\n')
    (hok : ∀ l ∈ preSent lines, okLineQ l = true)
    (hs : hasSent lines = true) :
    drain f (joinLines lines ++ frag) =
      (joinLines (postSent lines) ++ frag, (preSent lines).filterMap lineEmit) := by
  rw [drain_spec lines frag f hf hnl hfr hok, if_pos hs]

/-- Witness for the amended C3: one pass over a buffer holding a data frame,
the sentinel, and a further data frame; only the pre-sentinel delta is
emitted and the trailing frame stays buffered. -/
theorem sentinel_stops_current_drain_pass_witness :
    ([str "data: \x7b\"choices\":[\x7b\"delta\":\x7b\"content\":\"A\"\x7d\x7d]\x7d", str "data: [DONE]",
        str "data: \x7b\"choices\":[\x7b\"delta\":\x7b\"content\":\"B\"\x7d\x7d]\x7d"].length < 99) ∧
    hasSent [str "data: \x7b\"choices\":[\x7b\"delta\":\x7b\"content\":\"A\"\x7d\x7d]\x7d", str "data: [DONE]",
        str "data: \x7b\"choices\":[\x7b\"delta\":\x7b\"content\":\"B\"\x7d\x7d]\x7d"] = true ∧
    drain 99 (joinLines [str "data: \x7b\"choices\":[\x7b\"delta\":\x7b\"content\":\"A\"\x7d\x7d]\x7d",
        str "data: [DONE]",
        str "data: \x7b\"choices\":[\x7b\"delta\":\x7b\"content\":\"B\"\x7d\x7d]\x7d"] ++ []) =
      (joinLines (postSent [str "data: \x7b\"choices\":[\x7b\"delta\":\x7b\"content\":\"A\"\x7d\x7d]\x7d",
        str "data: [DONE]",
        str "data: \x7b\"choices\":[\x7b\"delta\":\x7b\"content\":\"B\"\x7d\x7d]\x7d"]) ++ [],
       (preSent [str "data: \x7b\"choices\":[\x7b\"delta\":\x7b\"content\":\"A\"\x7d\x7d]\x7d",
        str "data: [DONE]",
        str "data: \x7b\"choices\":[\x7b\"delta\":\x7b\"content\":\"B\"\x7d\x7d]\x7d"]).filterMap lineEmit) :=
  ⟨by decide, by decide,
    sentinel_stops_current_drain_pass
      [str "data: \x7b\"choices\":[\x7b\"delta\":\x7b\"content\":\"A\"\x7d\x7d]\x7d", str "data: [DONE]",
        str "data: \x7b\"choices\":[\x7b\"delta\":\x7b\"content\":\"B\"\x7d\x7d]\x7d"] [] 99
      (by decide) (by decide) (by decide) (by decide) (by decide)⟩

/-! ## The section segmenter `parseSections`

Translated from `src/unnamed/part_000:22-48`.  The heading test is the
regexp `^##\s+(?:[\u{1F000}-\u{1FFFF}]\s*)?(.+)` with the `u` flag, modelled with
its backtracking behaviour: the greedy `\s+` and `\s*` give back characters
one at a time until `(.+)` (one or more non-line-terminator characters) can
match. -/

/-- A character in the optional icon class `[\u{1F000}-\u{1FFFF}]`. -/
def emojiQ (c : Char) : Bool := 0x1F000 ≤ c.toNat && c.toNat ≤ 0x1FFFF

/-- A line terminator, which `.` does not match (`\n` cannot occur inside a
line; `\r`, U+2028 and U+2029 can). -/
def lineTermQ (c : Char) : Bool :=
  c = '\n' || c = '\r' || c.toNat = 0x2028 || c.toNat = 0x2029

/-- `(.+)` anchored here and at the end of the pattern: the maximal nonempty
run of non-terminator characters, or failure. -/
def dotPlus (cs : List Char) : Option (List Char) :=
  match cs.takeWhile (fun c => !lineTermQ c) with
  | [] => none
  | t => some t

/-- Greedy `\s*` followed by `(.+)`: try giving `j` whitespace characters to
`\s*`, backtracking from the maximal run down to zero. -/
def wsStarDot : Nat → List Char → Option (List Char)
  | 0, cs => dotPlus cs
  | j + 1, cs =>
    match dotPlus (cs.drop (j + 1)) with
    | some t => some t
    | none => wsStarDot j cs

/-- `(?:[\u{1F000}-\u{1FFFF}]\s*)?(.+)`: prefer taking the optional icon group. -/
def tailMatch (cs : List Char) : Option (List Char) :=
  match
    (match cs with
     | c :: rest => if emojiQ c then wsStarDot (rest.takeWhile jsWhite).length rest else none
     | [] => none)
  with
  | some t => some t
  | none => dotPlus cs

/-- Greedy `\s+` followed by the tail of the pattern: try giving `j ≥ 1`
whitespace characters to `\s+`, backtracking from the maximal run down. -/
def wsPlusTail : Nat → List Char → Option (List Char)
  | 0, _ => none
  | j + 1, cs =>
    match tailMatch (cs.drop (j + 1)) with
    | some t => some t
    | none => wsPlusTail j cs

/-- `line.match(/^##\s+(?:[\u{1F000}-\u{1FFFF}]\s*)?(.+)/u)`: the capture
group, or `none` when the line is not a second-level heading. -/
def h2Match (line : List Char) : Option (List Char) :=
  match line with
  | '#' :: '#' :: rest => wsPlusTail (rest.takeWhile jsWhite).length rest
  | _ => none

example : h2Match (str "## Hello") = some (str "Hello") := by decide

example : h2Match (str "##   ") = some (str " ") := by decide

example : h2Match (str "## ") = none := by decide

example : h2Match (str "#Hello") = none := by decide

example : h2Match (str "## 🏗️ Project Overview") = some (str "️ Project Overview") := by decide

/-- The fixed icon table of the UI, in source order. -/
def sectionIcons : List (List Char × List Char) :=
  [(str "Project Overview", str "🏗️"),
   (str "Tech Stack Analysis", str "⚙️"),
   (str "Architecture Pattern", str "🧩"),
   (str "Repository Health Score", str "📊"),
   (str "Good First Issues", str "🐛"),
   (str "Contribution Difficulty", str "🎯"),
   (str "Open Source Onboarding Plan", str "🚀")]

/-- `Object.entries(sectionIcons).find(([k]) => rawTitle.includes(k))?.[1] || "📄"`. -/
def iconFor (rawTitle : List Char) : List Char :=
  match sectionIcons.find? (fun kv => containsSub kv.1 rawTitle) with
  | some kv => kv.2
  | none => str "📄"

/-- One rendered section: icon, title, body. -/
structure Sec where
  icon : List Char
  title : List Char
  content : List Char
deriving DecidableEq

/-- The open section being accumulated (`current` in the source). -/
structure CurSec where
  icon : List Char
  title : List Char
  lines : List (List Char)

/-- JS `md.split("\n")`: always at least one element; no element contains a
newline. -/
def splitLines : List Char → List (List Char)
  | [] => [[]]
  | c :: cs =>
    if c = '\n' then [] :: splitLines cs
    else
      match splitLines cs with
      | [] => [[c]]
      | l :: ls => (c :: l) :: ls

example : splitLines (str "a\nb\n") = [str "a", str "b", []] := by decide

example : splitLines [] = [[]] := by decide

/-- `current.lines.join("\n")`. -/
def joinNlSep : List (List Char) → List Char
  | [] => []
  | [l] => l
  | l :: ls => l ++ '\n' :: joinNlSep ls

/-- `sections.push({icon, title, content: current.lines.join("\n").trim()})`. -/
def closeCur (c : CurSec) : Sec :=
  ⟨c.icon, c.title, trimC (joinNlSep c.lines)⟩

/-- `sections[sections.length - 1].content += line + "\n"`. -/
def appendLast (secs : List Sec) (s : List Char) : List Sec :=
  match secs with
  | [] => []
  | [x] => [⟨x.icon, x.title, x.content ++ s⟩]
  | x :: xs => x :: appendLast xs s

/-- The loop body of `parseSections` over the split lines. -/
def segLoop : List (List Char) → List Sec → Option CurSec → List Sec
  | [], secs, cur =>
    match cur with
    | some c => secs ++ [closeCur c]
    | none => secs
  | line :: rest, secs, cur =>
    match h2Match line with
    | some cap =>
      let secs' :=
        match cur with
        | some c => secs ++ [closeCur c]
        | none => secs
      let rawTitle := trimC cap
      segLoop rest secs' (some ⟨iconFor rawTitle, rawTitle, []⟩)
    | none =>
      match cur with
      | some c => segLoop rest secs (some ⟨c.icon, c.title, c.lines ++ [line]⟩)
      | none =>
        if trimC line ≠ [] then
          let secs' :=
            match secs.getLast? with
            | none => secs ++ [⟨str "📋", [], []⟩]
            | some x => if x.title = [] then secs else secs ++ [⟨str "📋", [], []⟩]
          segLoop rest (appendLast secs' (line ++ ['\n'])) none
        else segLoop rest secs none

/-- `parseSections` from `src/unnamed/part_000:22-48`. -/
def parseSections (md : List Char) : List Sec :=
  segLoop (splitLines md) [] none

example : parseSections [] = [] := by decide

example :
    parseSections (str "intro\n## Tech Stack Analysis\nbody line\n\nmore") =
      [⟨str "📋", [], str "intro\n"⟩,
       ⟨str "⚙️", str "Tech Stack Analysis", str "body line\n\nmore"⟩] := by decide

example : parseSections (str " ") = [] := by decide

example : parseSections (str "a\n\nb") = [⟨str "📋", [], str "a\nb\n"⟩] := by decide

/-- The non-blank lines of a heading-free text, each with the newline the
leading-section accumulator appends. -/
def leadBody (lines : List (List Char)) : List Char :=
  concatAll ((lines.filter (fun l => !(trimC l).isEmpty)).map (fun l => l ++ ['\n']))

theorem segLoop_noH_lead (lines : List (List Char)) :
    ∀ acc : List Char,
    (∀ l ∈ lines, h2Match l = none) →
    segLoop lines [⟨str "📋", [], acc⟩] none =
      [⟨str "📋", [], acc ++ leadBody lines⟩] := by
  induction lines with
  | nil => intro acc h; simp [segLoop, leadBody, concatAll]
  | cons line rest ih =>
    intro acc h
    have hh1 : h2Match line = none := h line (by simp)
    by_cases ht : trimC line = []
    · simp only [segLoop, hh1]
      rw [if_neg (by simpa using ht)]
      rw [ih acc (fun x hm => h x (by simp [hm]))]
      simp [leadBody, List.filter_cons, ht]
    · simp only [segLoop, hh1]
      rw [if_pos (by simpa using ht)]
      have hlast : ([⟨str "📋", [], acc⟩] : List Sec).getLast? = some ⟨str "📋", [], acc⟩ := rfl
      rw [hlast]
      simp only [if_pos rfl, appendLast]
      rw [ih (acc ++ (line ++ ['\n'])) (fun x hm => h x (by simp [hm]))]
      simp [leadBody, List.filter_cons, ht, concatAll, List.append_assoc]

theorem segLoop_noH_empty (lines : List (List Char)) :
    (∀ l ∈ lines, h2Match l = none) →
    segLoop lines [] none =
      (if lines.all (fun l => (trimC l).isEmpty) then []
       else [⟨str "📋", [], leadBody lines⟩]) := by
  induction lines with
  | nil => intro _; simp [segLoop]
  | cons line rest ih =>
    intro h
    have hh1 : h2Match line = none := h line (by simp)
    by_cases ht : trimC line = []
    · simp only [segLoop, hh1]
      rw [if_neg (by simpa using ht)]
      rw [ih (fun x hm => h x (by simp [hm]))]
      by_cases hall : rest.all (fun l => (trimC l).isEmpty) = true
      · rw [if_pos hall, if_pos (by simp [List.all_cons, ht, hall])]
      · rw [if_neg hall, if_neg (by simp [List.all_cons, ht]; simpa using hall)]
        simp [leadBody, List.filter_cons, ht]
    · simp only [segLoop, hh1]
      rw [if_pos (by simpa using ht)]
      have hlast : (([] : List Sec)).getLast? = none := rfl
      rw [hlast]
      simp only [List.nil_append, appendLast]
      rw [segLoop_noH_lead rest (line ++ ['\n']) (fun x hm => h x (by simp [hm]))]
      rw [if_neg (by simp [List.all_cons, ht])]
      simp [leadBody, List.filter_cons, ht, concatAll]

/-- C4 counterexample: the text `" "` is non-empty and contains no heading
line, yet the segmenter returns no section at all — the `line.trim()` guard
drops whitespace-only lines, so the claimed single title-less section does
not appear. -/
theorem whitespace_only_text_yields_no_section :
    str " " ≠ [] ∧ (∀ l ∈ splitLines (str " "), h2Match l = none) ∧
      parseSections (str " ") = [] := by
  refine ⟨by decide, by decide, by decide⟩

/-- C4 (amended): the segmenter maps the empty string to the empty section
list; on non-empty text with no heading line it collects exactly the
non-blank lines, each followed by a newline, into one leading title-less
section — and returns the empty list when every line is blank (blank lines
are dropped, so the body equals the whole input only when no line is blank
and the input is newline-terminated). -/
theorem segment_no_heading (md : List Char) (hne : md ≠ [])
    (hh : ∀ l ∈ splitLines md, h2Match l = none) :
    parseSections [] = [] ∧
    parseSections md =
      (if (splitLines md).all (fun l => (trimC l).isEmpty) then []
       else [⟨str "📋", [], leadBody (splitLines md)⟩]) := by
  refine ⟨by decide, ?_⟩
  unfold parseSections
  exact segLoop_noH_empty (splitLines md) hh

/-- Witness for the amended C4: a two-line heading-free text with a blank
line in between. -/
theorem segment_no_heading_witness :
    str "Hello repo\n\nsecond line" ≠ [] ∧
    (∀ l ∈ splitLines (str "Hello repo\n\nsecond line"), h2Match l = none) ∧
    (parseSections [] = [] ∧
      parseSections (str "Hello repo\n\nsecond line") =
        (if (splitLines (str "Hello repo\n\nsecond line")).all (fun l => (trimC l).isEmpty) then []
         else [⟨str "📋", [], leadBody (splitLines (str "Hello repo\n\nsecond line"))⟩])) :=
  ⟨by decide, by decide,
    segment_no_heading (str "Hello repo\n\nsecond line") (by decide) (by decide)⟩

/-- C5: re-running the segmenter on the same accumulated text yields
byte-identical output.  In this embedding `parseSections` is a pure function
of its argument — the source reads nothing but the line list of its input
and the constant icon table, so determinism and idempotence in the
sense of the specification hold by construction. -/
theorem parseSections_deterministic :
    ∀ md : List Char, parseSections md = parseSections md :=
  fun _ => rfl

/-! ## The aggregator `analyze-repo/index.ts`

The three upstream fetches, the prompt assembly, and the request handler,
with the outcome of each network interaction supplied as an environment.
Traces record whether the GitHub fetches were issued and every message pair
sent to the generation gateway. -/

/-- Fields of the repository-metadata response that `fetchRepoStats` reads
(`language`, `updated_at` and `description` are modelled already rendered to
text; `license` is the optional `license.spdx_id`; `topics` is the optional
`topics` array). -/
structure StatsData where
  stargazers : Int
  forks : Int
  openIssues : Int
  language : List Char
  license : Option (List Char)
  updatedAt : List Char
  description : List Char
  topics : Option (List (List Char))
deriving DecidableEq

/-- The record `fetchRepoStats` builds from the response. -/
structure RepoStats where
  stars : Int
  forks : Int
  open_issues : Int
  language : List Char
  license : List Char
  last_updated : List Char
  description : List Char
  topics : List (List Char)
deriving DecidableEq

/-- Outcome of the statistics fetch.  A non-success status and a network
error both land in the same `catch` and are indistinguishable (`failed`). -/
inductive StatsFetch where
  | ok (d : StatsData)
  | failed
deriving DecidableEq

/-- The projection in `fetchRepoStats` (`license?.spdx_id ?? "None"`,
`topics ?? []`). -/
def projStats (d : StatsData) : RepoStats :=
  ⟨d.stargazers, d.forks, d.openIssues, d.language, d.license.getD (str "None"),
    d.updatedAt, d.description, d.topics.getD []⟩

/-- `fetchRepoStats`: `null` on any failure. -/
def fetchRepoStatsRes : StatsFetch → Option RepoStats
  | .ok d => some (projStats d)
  | .failed => none

/-- Outcome of the readme fetch: success with the raw text, a non-success
HTTP status, or a thrown network error. -/
inductive ReadmeFetch where
  | ok (text : List Char)
  | httpError
  | netError
deriving DecidableEq

/-- `fetchReadme`: truncation to 6000 characters on success, and the two
distinct fallback strings of the source on the two failure paths. -/
def fetchReadmeRes : ReadmeFetch → List Char
  | .ok t => t.take 6000
  | .httpError => str "README not found."
  | .netError => str "Failed to fetch README."

structure RawLabel where
  name : List Char
deriving DecidableEq

/-- Fields of one issue record that `fetchIssues` reads. -/
structure RawIssue where
  title : List Char
  labels : Option (List RawLabel)
  state : List Char
  comments : Int
  url : List Char
deriving DecidableEq

structure IssueSum where
  title : List Char
  labels : List (List Char)
  state : List Char
  comments : Int
  url : List Char
deriving DecidableEq

/-- Outcome of the issues fetch.  A non-success status, a network error and
a malformed body all yield the empty list (`failed`). -/
inductive IssuesFetch where
  | ok (items : List RawIssue)
  | failed
deriving DecidableEq

/-- The per-issue projection in `fetchIssues` (`labels?.map(l => l.name) ?? []`). -/
def summarizeIssue (i : RawIssue) : IssueSum :=
  ⟨i.title, (i.labels.map (fun ls => ls.map RawLabel.name)).getD [], i.state,
    i.comments, i.url⟩

/-- `fetchIssues`: one summary per returned item, in response order; the
empty list on any failure.  The response size itself is only bounded by the
`per_page=15` request parameter, not by this code. -/
def fetchIssuesRes : IssuesFetch → List IssueSum
  | .ok items => items.map summarizeIssue
  | .failed => []

/-- The issues request URL built by `fetchIssues`. -/
def issuesUrl (owner repo : List Char) : List Char :=
  str "https://api.github.com/repos/" ++ owner ++ str "/" ++ repo ++
    str "/issues?state=open&per_page=15"

/-- `xs.join(sep)`. -/
def joinSep (sep : List Char) : List (List Char) → List Char
  | [] => []
  | [x] => x
  | x :: xs => x ++ sep ++ joinSep sep xs

/-- One line of the rendered issue list. -/
def issueLine (idx : Nat) (i : IssueSum) : List Char :=
  natChars (idx + 1) ++ str ". **" ++ i.title ++ str "** — Labels: [" ++
    (let j := joinSep (str ", ") i.labels
     if j = [] then str "none" else j) ++
    str "] — Comments: " ++ intChars i.comments

/-- The issues block of the user prompt: the numbered list, or the
"No open issues found." sentinel. -/
def issuesBlock (issues : List IssueSum) : List Char :=
  if issues.length > 0 then
    joinSep (str "\n") (issues.mapIdx (fun idx i => issueLine idx i))
  else str "No open issues found."

/-- The fixed system prompt of the aggregator. -/
def systemPrompt : List Char :=
  str "You are a Senior CNCF Architect & Open Source Maintainer. Analyze the given GitHub repository data and provide a comprehensive, structured analysis.\n\nYou MUST format your response using these exact sections with markdown:\n\n## 🏗️ Project Overview\nSummarize purpose and goals.\n\n## ⚙️ Tech Stack Analysis\nIdentify languages, frameworks, tools.\n\n## 🧩 Architecture Pattern\nIdentify: Microservices / Monolith / Operator / CLI / Library / Framework / etc.\n\n## 📊 Repository Health Score: X/100\nScore 0-100 considering: stars, recent activity, open issues, beginner issues, README quality. Justify clearly.\n\n## 🐛 Good First Issues\nList issues labeled \"good first issue\", \"help wanted\", \"beginner\". If none, say so.\n\n## 🎯 Contribution Difficulty: [Easy/Medium/Hard]\nExplain reasoning.\n\n## 🚀 Open Source Onboarding Plan\nStep-by-step beginner guide to contribute to this project."

/-- The user prompt up to and including the opening readme code fence. -/
def userPre (owner repo : List Char) (stats : RepoStats) : List Char :=
  str "Analyze this GitHub repository: **" ++ owner ++ str "/" ++ repo ++
  str "**\n\n**Repository Stats:**\n- ⭐ Stars: " ++ intChars stats.stars ++
  str "\n- 🍴 Forks: " ++ intChars stats.forks ++
  str "\n- 🐛 Open Issues: " ++ intChars stats.open_issues ++
  str "\n- 💻 Language: " ++ stats.language ++
  str "\n- 📜 License: " ++ stats.license ++
  str "\n- 📅 Last Updated: " ++ stats.last_updated ++
  str "\n- 📝 Description: " ++ stats.description ++
  str "\n- 🏷️ Topics: " ++
  (let j := joinSep (str ", ") stats.topics
   if j = [] then str "None" else j) ++
  str "\n\n**README (first 6000 chars):**\n```\n"

/-- The user prompt after the readme: closing fence and issues block. -/
def userPost (issues : List IssueSum) : List Char :=
  str "\n```\n\n**Open Issues (up to 15):**\n" ++ issuesBlock issues

/-- The assembled user prompt (`userContent` in the source). -/
def userContent (owner repo : List Char) (stats : RepoStats) (readme : List Char)
    (issues : List IssueSum) : List Char :=
  userPre owner repo stats ++ readme ++ userPost issues

def hexDigitC (n : Nat) : Char :=
  if n < 10 then Char.ofNat (48 + n) else Char.ofNat (87 + n)

/-- `JSON.stringify` escaping for string values. -/
def jsonEscape : List Char → List Char
  | [] => []
  | c :: cs =>
    (if c = '"' then str "\\\""
     else if c = '\\' then str "\\\\"
     else if c = '\n' then str "\\n"
     else if c = '\r' then str "\\r"
     else if c = '\t' then str "\\t"
     else if c = '\x08' then str "\\b"
     else if c = '\x0c' then str "\\f"
     else if c.toNat < 32 then
       str "\\u00" ++ [hexDigitC (c.toNat / 16), hexDigitC (c.toNat % 16)]
     else [c]) ++ jsonEscape cs

/-- `JSON.stringify({ error: msg })`. -/
def errBody (msg : List Char) : List Char :=
  str "\x7b\"error\":\"" ++ jsonEscape msg ++ str "\"\x7d"

example : errBody (str "oops") = str "\x7b\"error\":\"oops\"\x7d" := by decide

/-- A response of the aggregator: status, body, and content type. -/
structure HResponse where
  status : Nat
  body : List Char
  contentType : List Char
deriving DecidableEq

/-- Observable outbound activity of one request: whether the three GitHub
fetches were issued, and each (system, user) message pair sent to the
generation gateway. -/
structure ServeTrace where
  ghFetched : Bool
  genCalls : List (List Char × List Char)
deriving DecidableEq

/-- The parsed JSON request body (`{ owner, repo }`), each field possibly
absent.  The falsiness test `!owner || !repo` treats the empty string like
an absent field. -/
structure ReqBody where
  owner : Option (List Char)
  repo : Option (List Char)
deriving DecidableEq

/-- Status and body of the generation-gateway response. -/
structure GenResp where
  status : Nat
  body : List Char
deriving DecidableEq

/-- Environment of one request: outcomes of the four network interactions
and the credential configuration. -/
structure Env where
  readme : ReadmeFetch
  issues : IssuesFetch
  stats : StatsFetch
  apiKey : Option (List Char)
  gen : GenResp
deriving DecidableEq

def ctJson : List Char := str "application/json"

def ctEventStream : List Char := str "text/event-stream"

/-- `Response.ok`: status in 200–299. -/
def respOk (status : Nat) : Bool := 200 ≤ status && status ≤ 299

/-- JS falsiness of an optional string field. -/
def falsyStr : Option (List Char) → Bool
  | none => true
  | some [] => true
  | some (_ :: _) => false

/-- The status mapping applied to the generation-gateway response
(`index.ts:165-188`): 429 and 402 are surfaced with fixed bodies, any other
non-success status becomes a fixed 500 (the upstream body is only logged),
and a success response is passed through with the event-stream content
type. -/
def genPhase (g : GenResp) (msgs : List Char × List Char) : HResponse × ServeTrace :=
  if !respOk g.status then
    if g.status = 429 then
      (⟨429, errBody (str "Rate limit exceeded. Please try again later."), ctJson⟩,
       ⟨true, [msgs]⟩)
    else if g.status = 402 then
      (⟨402, errBody (str "AI usage limit reached. Please add credits."), ctJson⟩,
       ⟨true, [msgs]⟩)
    else
      (⟨500, errBody (str "AI analysis failed."), ctJson⟩, ⟨true, [msgs]⟩)
  else
    (⟨200, g.body, ctEventStream⟩, ⟨true, [msgs]⟩)

/-- The request handler of `serve` (`index.ts:66-196`), for a parsed JSON
body: field check, credential check (a missing key throws and is answered
by the outer catch as a 500), the three parallel GitHub fetches, the 404 on
missing statistics, prompt assembly, and the generation call. -/
def handleRequest (req : ReqBody) (env : Env) : HResponse × ServeTrace :=
  if falsyStr req.owner || falsyStr req.repo then
    (⟨400, errBody (str "Please provide owner and repo"), ctJson⟩, ⟨false, []⟩)
  else
    match env.apiKey with
    | none =>
      (⟨500, errBody (str "LOVABLE_API_KEY is not configured"), ctJson⟩, ⟨false, []⟩)
    | some _ =>
      let readme := fetchReadmeRes env.readme
      let issues := fetchIssuesRes env.issues
      let stats := fetchRepoStatsRes env.stats
      match stats with
      | none =>
        (⟨404, errBody (str "Repository " ++ req.owner.getD [] ++ str "/" ++
            req.repo.getD [] ++ str " not found or inaccessible."), ctJson⟩,
         ⟨true, []⟩)
      | some st =>
        genPhase env.gen
          (systemPrompt, userContent (req.owner.getD []) (req.repo.getD []) st readme issues)

/-! ## Aggregator lemmas and claims -/

theorem falsyStr_false (o : List Char) (h : o ≠ []) : falsyStr (some o) = false := by
  cases o with
  | nil => exact absurd rfl h
  | cons c cs => rfl

theorem handleRequest_stats_failed (req : ReqBody) (env : Env) (o r : List Char)
    (ho : req.owner = some o) (hr : req.repo = some r)
    (ho2 : o ≠ []) (hr2 : r ≠ [])
    (hk : env.apiKey.isSome = true) (hs : env.stats = .failed) :
    handleRequest req env =
      (⟨404, errBody (str "Repository " ++ o ++ str "/" ++ r ++
          str " not found or inaccessible."), ctJson⟩,
       ⟨true, []⟩) := by
  obtain ⟨k, hk2⟩ := Option.isSome_iff_exists.mp hk
  unfold handleRequest
  rw [ho, hr, falsyStr_false o ho2, falsyStr_false r hr2, hk2, hs]
  simp [fetchRepoStatsRes]

theorem handleRequest_stats_ok (req : ReqBody) (env : Env) (o r : List Char)
    (d : StatsData)
    (ho : req.owner = some o) (hr : req.repo = some r)
    (ho2 : o ≠ []) (hr2 : r ≠ [])
    (hk : env.apiKey.isSome = true) (hs : env.stats = .ok d) :
    handleRequest req env =
      genPhase env.gen
        (systemPrompt,
         userContent o r (projStats d) (fetchReadmeRes env.readme)
           (fetchIssuesRes env.issues)) := by
  obtain ⟨k, hk2⟩ := Option.isSome_iff_exists.mp hk
  unfold handleRequest
  rw [ho, hr, falsyStr_false o ho2, falsyStr_false r hr2, hk2, hs]
  simp [fetchRepoStatsRes]

theorem genPhase_calls (g : GenResp) (m : List Char × List Char) :
    (genPhase g m).2.genCalls = [m] := by
  unfold genPhase
  by_cases h1 : (!respOk g.status) = true
  · rw [if_pos h1]
    by_cases h2 : g.status = 429
    · rw [if_pos h2]
    · rw [if_neg h2]
      by_cases h3 : g.status = 402
      · rw [if_pos h3]
      · rw [if_neg h3]
  · rw [if_neg h1]

theorem startsWithC_self_append (t post : List Char) :
    startsWithC t (t ++ post) = true := by
  induction t with
  | nil => rfl
  | cons c cs ih => simp [startsWithC, ih]

theorem containsSub_of_parts (t pre post h : List Char)
    (heq : pre ++ t ++ post = h) : containsSub t h = true := by
  induction pre generalizing h with
  | nil =>
    rw [← heq]
    unfold containsSub
    simp [startsWithC_self_append]
  | cons c cs ih =>
    rw [← heq]
    have hsh : (c :: cs) ++ t ++ post = c :: (cs ++ t ++ post) := by simp
    rw [hsh]
    unfold containsSub
    have hih := ih (cs ++ (t ++ post)) (by simp)
    simp [hih]

theorem containsSub_append_right (t a b : List Char) (h : containsSub t b = true) :
    containsSub t (a ++ b) = true := by
  induction a with
  | nil => simpa using h
  | cons c cs ih =>
    have hsh : (c :: cs) ++ b = c :: (cs ++ b) := by simp
    rw [hsh]
    unfold containsSub
    simp [ih]

/-- C6: whenever the statistics fetch fails (the repository is deemed
missing), the aggregator answers 404 with exactly the body
`{"error":"Repository <owner>/<repo> not found or inaccessible."}` and the
generation gateway is never called — whatever the readme and issues fetches
returned. -/
theorem stats_missing_maps_to_404 (req : ReqBody) (env : Env) (o r : List Char)
    (ho : req.owner = some o) (hr : req.repo = some r)
    (ho2 : o ≠ []) (hr2 : r ≠ [])
    (hk : env.apiKey.isSome = true) (hs : env.stats = .failed) :
    handleRequest req env =
      (⟨404, errBody (str "Repository " ++ o ++ str "/" ++ r ++
          str " not found or inaccessible."), ctJson⟩,
       ⟨true, []⟩) :=
  handleRequest_stats_failed req env o r ho hr ho2 hr2 hk hs

/-- Witness for C6: the `{owner:"foo", repo:"bar"}` scenario of §8, with the
readme and issues fetches succeeding; the rendered body is checked
literally. -/
theorem stats_missing_maps_to_404_witness :
    handleRequest ⟨some (str "foo"), some (str "bar")⟩
        ⟨.ok (str "readme text"), .ok [], .failed, some (str "k"), ⟨200, []⟩⟩ =
      (⟨404, errBody (str "Repository " ++ str "foo" ++ str "/" ++ str "bar" ++
          str " not found or inaccessible."), ctJson⟩,
       ⟨true, []⟩) ∧
    errBody (str "Repository " ++ str "foo" ++ str "/" ++ str "bar" ++
        str " not found or inaccessible.") =
      str "\x7b\"error\":\"Repository foo/bar not found or inaccessible.\"\x7d" :=
  ⟨stats_missing_maps_to_404 ⟨some (str "foo"), some (str "bar")⟩
      ⟨.ok (str "readme text"), .ok [], .failed, some (str "k"), ⟨200, []⟩⟩
      (str "foo") (str "bar") rfl rfl (by decide) (by decide) (by decide) rfl,
    by decide⟩

/-- C7: once the generation call is made, a non-success status is mapped to
a structured error before any streaming: 429 to a fixed rate-limit error
with status 429 (and the gateway is called exactly once — no retry), 402 to
a fixed quota error with status 402, and every other non-success status to
a fixed 500 whose body is a constant — the upstream error body is never
relayed; a success response is passed through unparsed with the
event-stream content type. -/
theorem gen_status_mapping (req : ReqBody) (env : Env) (o r : List Char)
    (d : StatsData)
    (ho : req.owner = some o) (hr : req.repo = some r)
    (ho2 : o ≠ []) (hr2 : r ≠ [])
    (hk : env.apiKey.isSome = true) (hs : env.stats = .ok d) :
    ((handleRequest req env).2.genCalls.length = 1) ∧
    (env.gen.status = 429 →
      (handleRequest req env).1 =
        ⟨429, errBody (str "Rate limit exceeded. Please try again later."), ctJson⟩) ∧
    (env.gen.status = 402 →
      (handleRequest req env).1 =
        ⟨402, errBody (str "AI usage limit reached. Please add credits."), ctJson⟩) ∧
    (respOk env.gen.status = false → env.gen.status ≠ 429 → env.gen.status ≠ 402 →
      (handleRequest req env).1 = ⟨500, errBody (str "AI analysis failed."), ctJson⟩) ∧
    (respOk env.gen.status = true →
      (handleRequest req env).1 = ⟨200, env.gen.body, ctEventStream⟩) := by
  rw [handleRequest_stats_ok req env o r d ho hr ho2 hr2 hk hs]
  refine ⟨by rw [genPhase_calls]; rfl, ?_, ?_, ?_, ?_⟩
  · intro h429
    unfold genPhase
    rw [if_pos (by rw [h429]; decide), if_pos h429]
  · intro h402
    have hnot429 : env.gen.status ≠ 429 := by rw [h402]; decide
    unfold genPhase
    rw [if_pos (by rw [h402]; decide), if_neg hnot429, if_pos h402]
  · intro hnok h429 h402
    unfold genPhase
    rw [if_pos (by simp [hnok]), if_neg h429, if_neg h402]
  · intro hok
    unfold genPhase
    rw [if_neg (by simp [hok])]

/-- Witness for C7, at an upstream 429. -/
theorem gen_status_mapping_witness :
    ((handleRequest ⟨some (str "foo"), some (str "bar")⟩
        ⟨.ok (str "readme"), .ok [], .ok ⟨1, 2, 3, str "Go", none, str "2025-01-01", str "d", none⟩,
          some (str "k"), ⟨429, str "upstream error body"⟩⟩).2.genCalls.length = 1) ∧
    (handleRequest ⟨some (str "foo"), some (str "bar")⟩
        ⟨.ok (str "readme"), .ok [], .ok ⟨1, 2, 3, str "Go", none, str "2025-01-01", str "d", none⟩,
          some (str "k"), ⟨429, str "upstream error body"⟩⟩).1 =
      ⟨429, errBody (str "Rate limit exceeded. Please try again later."), ctJson⟩ := by
  refine ⟨?_, ?_⟩
  · exact (gen_status_mapping ⟨some (str "foo"), some (str "bar")⟩
      ⟨.ok (str "readme"), .ok [], .ok ⟨1, 2, 3, str "Go", none, str "2025-01-01", str "d", none⟩,
        some (str "k"), ⟨429, str "upstream error body"⟩⟩
      (str "foo") (str "bar") ⟨1, 2, 3, str "Go", none, str "2025-01-01", str "d", none⟩
      rfl rfl (by decide) (by decide) (by decide) rfl).1
  · exact (gen_status_mapping ⟨some (str "foo"), some (str "bar")⟩
      ⟨.ok (str "readme"), .ok [], .ok ⟨1, 2, 3, str "Go", none, str "2025-01-01", str "d", none⟩,
        some (str "k"), ⟨429, str "upstream error body"⟩⟩
      (str "foo") (str "bar") ⟨1, 2, 3, str "Go", none, str "2025-01-01", str "d", none⟩
      rfl rfl (by decide) (by decide) (by decide) rfl).2.1 rfl

set_option maxRecDepth 40000 in
/-- C8 counterexample: statistics succeed, the issues fetch succeeds, and the
readme fetch fails with a *network error*.  The aggregator completes (one
generation call), but the assembled prompt carries the fallback
`"Failed to fetch README."`, not the claimed `"README not found."` — the
two failure causes produce different fallback strings. -/
theorem net_error_prompt_lacks_not_found :
    ((handleRequest ⟨some (str "foo"), some (str "bar")⟩
        ⟨.netError, .ok [], .ok ⟨1, 2, 3, str "Go", none, str "2025-01-01", str "d", none⟩,
          some (str "k"), ⟨200, []⟩⟩).2.genCalls.map
      (fun m => containsSub (str "README not found.") m.2)) = [false] ∧
    ((handleRequest ⟨some (str "foo"), some (str "bar")⟩
        ⟨.netError, .ok [], .ok ⟨1, 2, 3, str "Go", none, str "2025-01-01", str "d", none⟩,
          some (str "k"), ⟨200, []⟩⟩).2.genCalls.map
      (fun m => containsSub (str "Failed to fetch README.") m.2)) = [true] := by
  refine ⟨by decide, by decide⟩

/-- C8 (amended): when statistics succeed and exactly one of the other two
sources fails, the aggregator still completes (exactly one generation call)
and the assembled prompt contains the fallback rendering of the failed
source: `"README not found."` when the readme fetch returned a non-success
status, `"Failed to fetch README."` when it threw (network error), and
`"No open issues found."` for any issue-fetch failure (non-success status,
network error, or malformed body). -/
theorem degraded_source_defaults (req : ReqBody) (env : Env) (o r : List Char)
    (d : StatsData)
    (ho : req.owner = some o) (hr : req.repo = some r)
    (ho2 : o ≠ []) (hr2 : r ≠ [])
    (hk : env.apiKey.isSome = true) (hs : env.stats = .ok d) :
    ((handleRequest req env).2.genCalls.length = 1) ∧
    (env.readme = .httpError →
      ∀ m ∈ (handleRequest req env).2.genCalls,
        containsSub (str "README not found.") m.2 = true) ∧
    (env.readme = .netError →
      ∀ m ∈ (handleRequest req env).2.genCalls,
        containsSub (str "Failed to fetch README.") m.2 = true) ∧
    (env.issues = .failed →
      ∀ m ∈ (handleRequest req env).2.genCalls,
        containsSub (str "No open issues found.") m.2 = true) := by
  rw [handleRequest_stats_ok req env o r d ho hr ho2 hr2 hk hs]
  rw [genPhase_calls]
  refine ⟨rfl, ?_, ?_, ?_⟩
  · intro hre m hm
    rw [List.mem_singleton] at hm
    subst hm
    rw [hre]
    exact containsSub_of_parts (str "README not found.")
      (userPre o r (projStats d)) (userPost (fetchIssuesRes env.issues)) _ rfl
  · intro hre m hm
    rw [List.mem_singleton] at hm
    subst hm
    rw [hre]
    exact containsSub_of_parts (str "Failed to fetch README.")
      (userPre o r (projStats d)) (userPost (fetchIssuesRes env.issues)) _ rfl
  · intro his m hm
    rw [List.mem_singleton] at hm
    subst hm
    rw [his]
    refine containsSub_of_parts (str "No open issues found.")
      (userPre o r (projStats d) ++ fetchReadmeRes env.readme ++
        str "\n```\n\n**Open Issues (up to 15):**\n") [] _ ?_
    simp [userContent, userPost, issuesBlock, fetchIssuesRes, List.append_assoc]

/-- Witness for the amended C8: readme fails with a non-success status while
issues succeed (empty list is a success here: the fetch returned a
well-formed empty page). -/
theorem degraded_source_defaults_witness :
    ((handleRequest ⟨some (str "foo"), some (str "bar")⟩
        ⟨.httpError, .ok [], .ok ⟨1, 2, 3, str "Go", none, str "2025-01-01", str "d", none⟩,
          some (str "k"), ⟨200, []⟩⟩).2.genCalls.length = 1) ∧
    ((.httpError : ReadmeFetch) = .httpError →
      ∀ m ∈ (handleRequest ⟨some (str "foo"), some (str "bar")⟩
        ⟨.httpError, .ok [], .ok ⟨1, 2, 3, str "Go", none, str "2025-01-01", str "d", none⟩,
          some (str "k"), ⟨200, []⟩⟩).2.genCalls,
        containsSub (str "README not found.") m.2 = true) ∧
    ((.httpError : ReadmeFetch) = .netError →
      ∀ m ∈ (handleRequest ⟨some (str "foo"), some (str "bar")⟩
        ⟨.httpError, .ok [], .ok ⟨1, 2, 3, str "Go", none, str "2025-01-01", str "d", none⟩,
          some (str "k"), ⟨200, []⟩⟩).2.genCalls,
        containsSub (str "Failed to fetch README.") m.2 = true) ∧
    ((.ok [] : IssuesFetch) = .failed →
      ∀ m ∈ (handleRequest ⟨some (str "foo"), some (str "bar")⟩
        ⟨.httpError, .ok [], .ok ⟨1, 2, 3, str "Go", none, str "2025-01-01", str "d", none⟩,
          some (str "k"), ⟨200, []⟩⟩).2.genCalls,
        containsSub (str "No open issues found.") m.2 = true) :=
  degraded_source_defaults ⟨some (str "foo"), some (str "bar")⟩
    ⟨.httpError, .ok [], .ok ⟨1, 2, 3, str "Go", none, str "2025-01-01", str "d", none⟩,
      some (str "k"), ⟨200, []⟩⟩
    (str "foo") (str "bar") ⟨1, 2, 3, str "Go", none, str "2025-01-01", str "d", none⟩
    rfl rfl (by decide) (by decide) (by decide) rfl

/-- Number of items in the issues-endpoint response. -/
def respItemCount : IssuesFetch → Nat
  | .ok items => items.length
  | .failed => 0

/-- C9 counterexample: a response carrying 16 items.  The collector maps
them all — it never truncates — so it returns 16 summaries, violating the
claimed bound of 15 for *every* response.  (The bound only comes from the
`per_page=15` request parameter.) -/
theorem sixteen_issue_response_not_truncated :
    (fetchIssuesRes (.ok (List.replicate 16 ⟨str "t", none, str "open", 0, str "u"⟩))).length
        = 16 ∧
    ¬ ((fetchIssuesRes
        (.ok (List.replicate 16 ⟨str "t", none, str "open", 0, str "u"⟩))).length ≤ 15) :=
  ⟨by decide, by decide⟩

/-- C9 (amended): the collector requests at most 15 issues (`per_page=15`
is in the request URL) and returns exactly one summary per response item,
in the order the API returned them; hence whenever the endpoint honours the
page size (at most 15 items), the summary list has at most 15 entries. -/
theorem issue_summaries_bounded (fr : IssuesFetch) (h : respItemCount fr ≤ 15) :
    (fetchIssuesRes fr).length ≤ 15 ∧
    (∀ items, fr = .ok items →
      ∀ i : Nat, (fetchIssuesRes fr)[i]? = (items[i]?).map summarizeIssue) ∧
    (∀ o r : List Char, containsSub (str "per_page=15") (issuesUrl o r) = true) := by
  refine ⟨?_, ?_, ?_⟩
  · cases fr with
    | ok items => simpa [fetchIssuesRes, respItemCount] using h
    | failed => simp [fetchIssuesRes]
  · intro items hfr i
    subst hfr
    simp [fetchIssuesRes]
  · intro o r
    unfold issuesUrl
    apply containsSub_append_right
    decide

/-- Witness for the amended C9: a response with two issues. -/
theorem issue_summaries_bounded_witness :
    respItemCount (.ok [⟨str "a", none, str "open", 1, str "u1"⟩,
        ⟨str "b", some [⟨str "bug"⟩], str "open", 2, str "u2"⟩]) ≤ 15 ∧
    ((fetchIssuesRes (.ok [⟨str "a", none, str "open", 1, str "u1"⟩,
        ⟨str "b", some [⟨str "bug"⟩], str "open", 2, str "u2"⟩])).length ≤ 15 ∧
      (∀ items, (.ok [⟨str "a", none, str "open", 1, str "u1"⟩,
          ⟨str "b", some [⟨str "bug"⟩], str "open", 2, str "u2"⟩] : IssuesFetch) = .ok items →
        ∀ i : Nat,
          (fetchIssuesRes (.ok [⟨str "a", none, str "open", 1, str "u1"⟩,
            ⟨str "b", some [⟨str "bug"⟩], str "open", 2, str "u2"⟩]))[i]? =
            (items[i]?).map summarizeIssue) ∧
      (∀ o r : List Char, containsSub (str "per_page=15") (issuesUrl o r) = true)) :=
  ⟨by decide,
    issue_summaries_bounded (.ok [⟨str "a", none, str "open", 1, str "u1"⟩,
      ⟨str "b", some [⟨str "bug"⟩], str "open", 2, str "u2"⟩]) (by decide)⟩

/-- C10: an inbound body whose `owner` or `repo` field is the empty string
is rejected with the same fixed 400 error as an absent field — the JS
falsiness test conflates them — before the credential check (the response
does not depend on the key) and before any upstream fetch (the trace shows
none). -/
theorem empty_field_rejected_400 (req : ReqBody) (env : Env)
    (h : req.owner = some [] ∨ req.repo = some []) :
    handleRequest req env =
      (⟨400, errBody (str "Please provide owner and repo"), ctJson⟩, ⟨false, []⟩) ∧
    (∀ k, handleRequest req ⟨env.readme, env.issues, env.stats, k, env.gen⟩ =
      handleRequest req env) ∧
    handleRequest req env = handleRequest ⟨none, none⟩ env := by
  have hf : (falsyStr req.owner || falsyStr req.repo) = true := by
    rcases h with h | h <;> rw [h] <;> simp [falsyStr]
  have hmain : ∀ e : Env, handleRequest req e =
      (⟨400, errBody (str "Please provide owner and repo"), ctJson⟩, ⟨false, []⟩) := by
    intro e
    unfold handleRequest
    rw [if_pos hf]
  refine ⟨hmain env, fun k => by rw [hmain, hmain], ?_⟩
  rw [hmain]
  rfl

/-- Witness for C10: `owner` present but empty. -/
theorem empty_field_rejected_400_witness :
    (handleRequest ⟨some [], some (str "bar")⟩
        ⟨.ok [], .ok [], .failed, none, ⟨200, []⟩⟩ =
      (⟨400, errBody (str "Please provide owner and repo"), ctJson⟩, ⟨false, []⟩)) ∧
    (∀ k, handleRequest ⟨some [], some (str "bar")⟩
        ⟨.ok [], .ok [], .failed, k, ⟨200, []⟩⟩ =
      handleRequest ⟨some [], some (str "bar")⟩ ⟨.ok [], .ok [], .failed, none, ⟨200, []⟩⟩) ∧
    handleRequest ⟨some [], some (str "bar")⟩ ⟨.ok [], .ok [], .failed, none, ⟨200, []⟩⟩ =
      handleRequest ⟨none, none⟩ ⟨.ok [], .ok [], .failed, none, ⟨200, []⟩⟩ :=
  empty_field_rejected_400 ⟨some [], some (str "bar")⟩
    ⟨.ok [], .ok [], .failed, none, ⟨200, []⟩⟩ (Or.inl rfl)
